import Mathlib

/-!
Car-Info-Search: storage, repository and service layer.

A shallow embedding of `server/utils/storage.go`, `server/repositories/file_repository.go`,
`server/models/car.go` and `server/controllers/car_controller.go`.

Conventions of the embedding:
* the file system is a map from paths to file contents (`FS`);
* every operating-system call whose failure the Go code handles takes its outcome from a
  fault record (`Faults`), so that failing writes and renames can be stated;
* `encoding/json` is a parameter (`Codec`): a marshaller that may fail, the decode into a
  fresh target, and the decode into a target that already holds a value;
* locks and log calls have no effect on the sequential state and are left out;
* `time.Now()` is a parameter of the operation that reads the clock.
-/

namespace CarInfo

/-! ## Data model (`models/car.go`) -/

/-- Go `time.Time`, as the number of nanoseconds since the zero `Time`; `0` is the zero
value, which is what an unset timestamp holds. -/
abbrev Time := Int

/-- Go `float64` fields are only carried around by the code under study; they are kept as
their 64-bit pattern. -/
abbrev Float64 := Nat

/-- The `Car` struct. -/
structure Car where
  ID : String
  Brand : String
  Model : String
  FuelConsumption : Float64
  FuelType : String
  Mileage : Float64
  AnnualMileage : Float64
  StorageEnvironment : String
  UsageScenario : List String
  Remarks : String
  CreatedAt : Time
  UpdatedAt : Time
  deriving DecidableEq, Repr

/-- The zero value of `Car` (what `var car models.Car` holds). -/
def Car.zero : Car :=
  ⟨"", "", "", 0, "", 0, 0, "", [], "", 0, 0⟩

/-! ## The environment: file system, faults, JSON -/

/-- File-system state: the content of every path that exists. -/
abbrev FS := String → Option String

/-- The file system without any file. -/
def FS.empty : FS := fun _ => none

/-- Outcomes of the operating-system calls made by `SaveJSON`; `true` means the call
fails. -/
structure Faults where
  mkdirAll : Bool
  renameBak : Bool
  writeTmp : Bool
  renameTmp : Bool
  removeTmp : Bool
  deriving DecidableEq, Repr

/-- No call fails. -/
def Faults.none : Faults := ⟨false, false, false, false, false⟩

/-- The pair `json.MarshalIndent` / `json.Unmarshal` at one Go type.
`unmarshal` is the decode into a fresh target (a nil slice, a zero struct), which is a
function of the text. `unmarshalInto` is the decode into a target that holds a value:
whether it succeeded, and what the target holds afterwards. `encoding/json` lays the members
of the text over the target, so members the text does not have keep what the target held,
and a decode that fails on a member of the wrong type has still stored the other members. -/
structure Codec (α : Type) where
  marshal : α → Option String
  unmarshal : String → Option α
  unmarshalInto : String → α → Bool × α

/-- What is used of JSON: unmarshalling inverts marshalling, and the empty text is not a
JSON document. -/
def Codec.Lawful {α : Type} (c : Codec α) : Prop :=
  (∀ d s, c.marshal d = some s → c.unmarshal s = some d) ∧ c.unmarshal "" = Option.none

/-- Errors returned by `Storage`. -/
inductive StorageError where
  | mkdir
  | marshal
  | writeTemp
  | rename
  | read
  | parse
  deriving DecidableEq, Repr

/-- `filepath.Join` on two components that are already clean. -/
def filepathJoin (dir name : String) : String :=
  if dir = "" then name else dir ++ "/" ++ name

/-- `os.Stat` followed by `!os.IsNotExist(err)`. -/
def osExists (fs : FS) (path : String) : Bool := (fs path).isSome

/-- `os.ReadFile`. -/
def osReadFile (fs : FS) (path : String) : Option String := fs path

/-- `os.Rename`: returns whether it succeeded, and the new state. -/
def osRename (fails : Bool) (fs : FS) (oldpath newpath : String) : Bool × FS :=
  if fails then (false, fs)
  else
    match fs oldpath with
    | Option.none => (false, fs)
    | some d => (true, fun q => if q = newpath then some d else if q = oldpath then Option.none else fs q)

/-- `os.WriteFile`: a failed write leaves the state as it was. -/
def osWriteFile (fails : Bool) (fs : FS) (path data : String) : Bool × FS :=
  if fails then (false, fs)
  else (true, fun q => if q = path then some data else fs q)

/-- `os.Remove`. -/
def osRemove (fails : Bool) (fs : FS) (path : String) : Bool × FS :=
  if fails then (false, fs)
  else
    match fs path with
    | Option.none => (false, fs)
    | some _ => (true, fun q => if q = path then Option.none else fs q)

/-! ## `utils/storage.go` -/

/-- The `Storage` struct (lock and logger left out). -/
structure Storage where
  DataDir : String
  deriving DecidableEq, Repr

/-- `Storage.FileExists`. -/
def Storage.FileExists (s : Storage) (fs : FS) (filename : String) : Bool :=
  let filePath := filepathJoin s.DataDir filename
  osExists fs filePath

/-- `Storage.SaveJSON`: the returned error and the file system it leaves. -/
def Storage.SaveJSON {α : Type} (s : Storage) (c : Codec α) (fl : Faults) (fs : FS)
    (filename : String) (data : α) : Except StorageError Unit × FS :=
  let filePath := filepathJoin s.DataDir filename
  if fl.mkdirAll then (.error .mkdir, fs)
  else
    match c.marshal data with
    | Option.none => (.error .marshal, fs)
    | some jsonData =>
      let fs1 :=
        if s.FileExists fs filename then
          let backupFile := filePath ++ ".bak"
          (osRename fl.renameBak fs filePath backupFile).2
        else fs
      let tempFile := filePath ++ ".tmp"
      match osWriteFile fl.writeTmp fs1 tempFile jsonData with
      | (false, fs2) => (.error .writeTemp, fs2)
      | (true, fs2) =>
        match osRename fl.renameTmp fs2 tempFile filePath with
        | (false, fs3) => (.error .rename, (osRemove fl.removeTmp fs3 tempFile).2)
        | (true, fs3) => (.ok (), fs3)

/-- `Storage.LoadJSON`: `target` is the value the caller passes in, the result is the value
it holds afterwards. The caller passes a fresh target (`FindAll` passes a nil slice), so the
decode of the main file is `unmarshal`; when it fails, the backup is decoded into the same
target, which holds what the failed decode left. -/
def Storage.LoadJSON {α : Type} (s : Storage) (c : Codec α) (fs : FS)
    (filename : String) (target : α) : Except StorageError α :=
  let filePath := filepathJoin s.DataDir filename
  if !osExists fs filePath then .ok target
  else
    match osReadFile fs filePath with
    | Option.none => .error .read
    | some fileData =>
      if fileData.length = 0 then .ok target
      else
        match c.unmarshal fileData with
        | some d => .ok d
        | Option.none =>
          let target := (c.unmarshalInto fileData target).2
          let backupFile := filePath ++ ".bak"
          if osExists fs backupFile then
            match osReadFile fs backupFile with
            | some backupData =>
              if backupData.length > 0 then
                match c.unmarshalInto backupData target with
                | (true, d) => .ok d
                | (false, _) => .error .parse
              else .error .parse
            | Option.none => .error .parse
          else .error .parse

/-! ## `repositories/file_repository.go` -/

/-- The `FileCarRepository` struct (logger left out). -/
structure FileCarRepository where
  Storage : Storage
  FileName : String
  deriving DecidableEq, Repr

/-- Errors returned by the repository: a wrapped load error, the "does not exist" error
carrying the identifier, a wrapped save error. -/
inductive RepoError where
  | load (e : StorageError)
  | notFound (id : String)
  | save (e : StorageError)
  deriving DecidableEq, Repr

/-- `FileCarRepository.FindAll`; the target starts as the nil slice. -/
def FileCarRepository.FindAll (r : FileCarRepository) (c : Codec (List Car)) (fs : FS) :
    Except RepoError (List Car) :=
  match r.Storage.LoadJSON c fs r.FileName [] with
  | .error e => .error (.load e)
  | .ok cars => .ok cars

/-- The scan of `FindByID`: the first record whose `ID` is `id`. -/
def findByIDLoop (id : String) : List Car → Option Car
  | [] => Option.none
  | car :: rest => if car.ID = id then some car else findByIDLoop id rest

/-- `FileCarRepository.FindByID`. -/
def FileCarRepository.FindByID (r : FileCarRepository) (c : Codec (List Car)) (fs : FS)
    (id : String) : Except RepoError Car :=
  match r.FindAll c fs with
  | .error e => .error e
  | .ok cars =>
    match findByIDLoop id cars with
    | some car => .ok car
    | Option.none => .error (.notFound id)

/-- `FileCarRepository.Create`. -/
def FileCarRepository.Create (r : FileCarRepository) (c : Codec (List Car)) (fl : Faults)
    (fs : FS) (car : Car) : Except RepoError Unit × FS :=
  match r.FindAll c fs with
  | .error e => (.error e, fs)
  | .ok cars =>
    let cars := cars ++ [car]
    match r.Storage.SaveJSON c fl fs r.FileName cars with
    | (.error e, fs1) => (.error (.save e), fs1)
    | (.ok _, fs1) => (.ok (), fs1)

/-- The loop of `Update`: assigns `car` at the first index whose record has `car.ID`, sets
`found` and breaks. Returns the slice and `found`. -/
def updateLoop (car : Car) : List Car → List Car × Bool
  | [] => ([], false)
  | c :: rest =>
    if c.ID = car.ID then (car :: rest, true)
    else ((c :: (updateLoop car rest).1), (updateLoop car rest).2)

/-- `FileCarRepository.Update`. -/
def FileCarRepository.Update (r : FileCarRepository) (c : Codec (List Car)) (fl : Faults)
    (fs : FS) (car : Car) : Except RepoError Unit × FS :=
  match r.FindAll c fs with
  | .error e => (.error e, fs)
  | .ok cars =>
    match updateLoop car cars with
    | (_, false) => (.error (.notFound car.ID), fs)
    | (cars, true) =>
      match r.Storage.SaveJSON c fl fs r.FileName cars with
      | (.error e, fs1) => (.error (.save e), fs1)
      | (.ok _, fs1) => (.ok (), fs1)

/-- The loop of `Delete`, from the state `(newCars, found)`. -/
def deleteLoop (id : String) : List Car → List Car × Bool → List Car × Bool
  | [], acc => acc
  | car :: rest, (newCars, found) =>
    if car.ID ≠ id then deleteLoop id rest (newCars ++ [car], found)
    else deleteLoop id rest (newCars, true)

/-- `FileCarRepository.Delete`. -/
def FileCarRepository.Delete (r : FileCarRepository) (c : Codec (List Car)) (fl : Faults)
    (fs : FS) (id : String) : Except RepoError Unit × FS :=
  match r.FindAll c fs with
  | .error e => (.error e, fs)
  | .ok cars =>
    match deleteLoop id cars ([], false) with
    | (_, false) => (.error (.notFound id), fs)
    | (newCars, true) =>
      match r.Storage.SaveJSON c fl fs r.FileName newCars with
      | (.error e, fs1) => (.error (.save e), fs1)
      | (.ok _, fs1) => (.ok (), fs1)

/-- The loop of `FindByBrand`, from the accumulated `result`. -/
def findByBrandLoop (brand : String) : List Car → List Car → List Car
  | [], result => result
  | car :: rest, result =>
    if car.Brand = brand then findByBrandLoop brand rest (result ++ [car])
    else findByBrandLoop brand rest result

/-- `FileCarRepository.FindByBrand`. -/
def FileCarRepository.FindByBrand (r : FileCarRepository) (c : Codec (List Car)) (fs : FS)
    (brand : String) : Except RepoError (List Car) :=
  match r.FindAll c fs with
  | .error e => .error e
  | .ok cars => .ok (findByBrandLoop brand cars [])

/-! ## `utils/helpers.go` and identifier generation -/

/-- The digit characters of `strconv.FormatInt` in base 36: `0`-`9`, then `a`-`z`. -/
def digit36 (d : Nat) : Char :=
  if d < 10 then Char.ofNat (48 + d) else Char.ofNat (87 + d)

/-- Base-36 digits of `n`, most significant first, in front of `acc`. -/
def formatDigits36 : Nat → Nat → List Char → List Char
  | 0, _, acc => acc
  | fuel + 1, n, acc =>
    if n / 36 = 0 then digit36 (n % 36) :: acc
    else formatDigits36 fuel (n / 36) (digit36 (n % 36) :: acc)

/-- `FormatInt36`: `strings.ToLower(strconv.FormatInt(n, 36))`. -/
def FormatInt36 (n : Int) : String :=
  let digits := String.mk (formatDigits36 (n.natAbs + 1) n.natAbs [])
  String.mk ((if n < 0 then "-" ++ digits else digits).data.map Char.toLower)

/-- `GenerateID`, as a function of the string of the drawn UUID and of the `UnixNano`
clock reading. Both strings are ASCII, so slicing bytes is slicing characters; `none` is the
run-time panic of a slice that is out of range. -/
def GenerateID (uuid : String) (timestamp : Int) : Option String :=
  if uuid.length < 8 then Option.none
  else
    let shortID := String.mk (uuid.data.take 8)
    let full := FormatInt36 timestamp
    if full.length < 6 then Option.none
    else
      let timestampStr := String.mk (full.data.take 6)
      some (shortID ++ "-" ++ timestampStr)

/-! ## `utils/redis.go`: the calls the service makes on writes -/

/-- The `RedisCache` struct (client and logger left out). -/
structure RedisCache where
  Prefix : String
  deriving DecidableEq, Repr

/-- State of the cache server: the bytes and the expiration stored under each key. -/
abbrev CacheState := String → Option (String × Int)

/-- Outcomes of the calls on the cache client; `true` means the transport fails. -/
structure CacheFaults where
  set : Bool
  get : Bool
  del : Bool
  deriving DecidableEq, Repr

/-- Errors returned by `RedisCache`. -/
inductive CacheError where
  | marshal
  | set
  | miss
  | get
  | parse
  | del
  deriving DecidableEq, Repr

/-- `RedisCache.formatKey`. -/
def RedisCache.formatKey (r : RedisCache) (key : String) : String :=
  r.Prefix ++ ":" ++ key

/-- `RedisCache.Set`. -/
def RedisCache.Set {α : Type} (r : RedisCache) (c : Codec α) (cfl : CacheFaults)
    (st : CacheState) (key : String) (value : α) (expiration : Int) :
    Except CacheError Unit × CacheState :=
  match c.marshal value with
  | Option.none => (.error .marshal, st)
  | some data =>
    let formattedKey := r.formatKey key
    if cfl.set then (.error .set, st)
    else (.ok (), fun k => if k = formattedKey then some (data, expiration) else st k)

/-- `RedisCache.Get`: the returned error, and what the target holds afterwards. The caller
passes a fresh target, so a successful decode is `unmarshal`; a decode that fails leaves in
the target what it stored before the error. -/
def RedisCache.Get {α : Type} (r : RedisCache) (c : Codec α) (cfl : CacheFaults)
    (st : CacheState) (key : String) (target : α) : Except CacheError Unit × α :=
  let formattedKey := r.formatKey key
  if cfl.get then (.error .get, target)
  else
    match st formattedKey with
    | Option.none => (.error .miss, target)
    | some (data, _) =>
      match c.unmarshal data with
      | Option.none => (.error .parse, (c.unmarshalInto data target).2)
      | some v => (.ok (), v)

/-- `RedisCache.Delete`. -/
def RedisCache.Delete (r : RedisCache) (cfl : CacheFaults) (st : CacheState) (key : String) :
    Except CacheError Unit × CacheState :=
  let formattedKey := r.formatKey key
  if cfl.del then (.error .del, st)
  else (.ok (), fun k => if k = formattedKey then Option.none else st k)

/-! ## `models/car.go`: the service -/

/-- The `CarService` struct; `Cache = none` is the nil pointer. -/
structure CarService where
  Repo : FileCarRepository
  Cache : Option RedisCache
  deriving DecidableEq, Repr

/-- State the service works on: the files and the cache server. -/
structure World where
  fs : FS
  cache : CacheState

/-- JSON at the two Go types that are serialised: `[]Car` (store) and `*Car` (cache). -/
structure Env where
  cars : Codec (List Car)
  car : Codec Car

/-- The constant `24*time.Hour`, in nanoseconds. -/
def dayTTL : Int := 24 * 3600000000000

/-- `CarService.GetAllCars`. -/
def CarService.GetAllCars (s : CarService) (env : Env) (w : World) :
    Except RepoError (List Car) :=
  s.Repo.FindAll env.cars w.fs

/-- `CarService.CreateCar`: the returned error, the record behind the pointer afterwards and
the new state; `none` when `GenerateID` panics. `uuid`, `timestamp` and `now` are what
`uuid.New().String()`, `time.Now().UnixNano()` and `time.Now()` return. -/
def CarService.CreateCar (s : CarService) (env : Env) (fl : Faults) (cfl : CacheFaults)
    (w : World) (uuid : String) (timestamp : Int) (now : Time) (car : Car) :
    Option (Except RepoError Unit × Car × World) :=
  match GenerateID uuid timestamp with
  | Option.none => Option.none
  | some id =>
    let car := { car with ID := id }
    let car := { car with CreatedAt := now }
    match s.Repo.Create env.cars fl w.fs car with
    | (.error e, fs1) => some (.error e, car, { w with fs := fs1 })
    | (.ok _, fs1) =>
      match s.Cache with
      | some cache =>
        some (.ok (), car,
          { fs := fs1, cache := (cache.Set env.car cfl w.cache ("car:" ++ car.ID) car dayTTL).2 })
      | Option.none => some (.ok (), car, { w with fs := fs1 })

/-- `CarService.UpdateCar`: the returned error, the record behind the pointer afterwards and
the new state. -/
def CarService.UpdateCar (s : CarService) (env : Env) (fl : Faults) (cfl : CacheFaults)
    (w : World) (now : Time) (car : Car) : Except RepoError Unit × Car × World :=
  let car := { car with UpdatedAt := now }
  match s.Repo.Update env.cars fl w.fs car with
  | (.error e, fs1) => (.error e, car, { w with fs := fs1 })
  | (.ok _, fs1) =>
    match s.Cache with
    | some cache =>
      (.ok (), car,
        { fs := fs1, cache := (cache.Set env.car cfl w.cache ("car:" ++ car.ID) car dayTTL).2 })
    | Option.none => (.ok (), car, { w with fs := fs1 })

/-- `CarService.DeleteCar`. -/
def CarService.DeleteCar (s : CarService) (env : Env) (fl : Faults) (cfl : CacheFaults)
    (w : World) (id : String) : Except RepoError Unit × World :=
  match s.Repo.Delete env.cars fl w.fs id with
  | (.error e, fs1) => (.error e, { w with fs := fs1 })
  | (.ok _, fs1) =>
    match s.Cache with
    | some cache =>
      (.ok (), { fs := fs1, cache := (cache.Delete cfl w.cache ("car:" ++ id)).2 })
    | Option.none => (.ok (), { w with fs := fs1 })

/-- `CarService.FindCarsByBrand`. -/
def CarService.FindCarsByBrand (s : CarService) (env : Env) (w : World) (brand : String) :
    Except RepoError (List Car) :=
  s.Repo.FindByBrand env.cars w.fs brand

/-! ## `controllers/car_controller.go`: the update handler -/

/-- What a handler writes: the status and, for a record, the payload. -/
inductive Response where
  | ok (car : Car)
  | badRequest
  | internalServerError
  deriving DecidableEq, Repr

/-- `CarController.UpdateCar`: `id` is the path parameter, `body` the result of binding the
request body into a zero `Car` (`none` when binding fails). -/
def CarController.UpdateCar (svc : CarService) (env : Env) (fl : Faults) (cfl : CacheFaults)
    (w : World) (now : Time) (id : String) (body : Option Car) : Response × World :=
  match body with
  | Option.none => (.badRequest, w)
  | some car =>
    let car := { car with ID := id }
    match svc.UpdateCar env fl cfl w now car with
    | (.error _, _, w1) => (.internalServerError, w1)
    | (.ok _, car, w1) => (.ok car, w1)

/-! ## `utils/redis.go`: retry and fallback -/

/-- What a call of `SetWithRetry` returns and leaves: the returned error (`none` is nil), the
cache state, and the numbers of calls of `Set` and of `time.Sleep` it made. -/
structure RetryOutcome where
  err : Option CacheError
  cache : CacheState
  attempts : Nat
  sleeps : Nat

/-- The loop of `SetWithRetry` from the index `i`, with at most `fuel` iterations left;
`cfls i` is the transport outcome of the attempt of index `i`, and `acc` holds `lastErr`,
the cache state and the two counters. -/
def setWithRetryLoop {α : Type} (r : RedisCache) (c : Codec α) (cfls : Nat → CacheFaults)
    (key : String) (value : α) (expiration : Int) (retries : Int) :
    Nat → Nat → RetryOutcome → RetryOutcome
  | 0, _, acc => acc
  | fuel + 1, i, acc =>
    if (i : Int) ≤ retries then
      match r.Set c (cfls i) acc.cache key value expiration with
      | (.ok _, st1) => ⟨Option.none, st1, acc.attempts + 1, acc.sleeps⟩
      | (.error e, st1) =>
        if (i : Int) < retries then
          setWithRetryLoop r c cfls key value expiration retries fuel (i + 1)
            ⟨some e, st1, acc.attempts + 1, acc.sleeps + 1⟩
        else
          setWithRetryLoop r c cfls key value expiration retries fuel (i + 1)
            ⟨some e, st1, acc.attempts + 1, acc.sleeps⟩
    else acc

/-- `RedisCache.SetWithRetry`; the loop runs for `i = 0, ..., retries`. -/
def RedisCache.SetWithRetry {α : Type} (r : RedisCache) (c : Codec α)
    (cfls : Nat → CacheFaults) (st : CacheState) (key : String) (value : α)
    (expiration : Int) (retries : Int) : RetryOutcome :=
  setWithRetryLoop r c cfls key value expiration retries (retries + 1).toNat 0
    ⟨Option.none, st, 0, 0⟩

/-- Errors returned by `GetWithFallback`: the wrapped error of the fallback, the failure to
marshal its result, the failure to unmarshal that text into the target. -/
inductive FallbackError (ε : Type) where
  | fallback (e : ε)
  | marshal
  | parse
  deriving DecidableEq, Repr

/-- What a call of `GetWithFallback` returns and leaves: the returned error or the value in
the target, the state of the fallback's source, whether the detached cache write was
started, and the cache state once that write has run. -/
structure FallbackOutcome (α σ ε : Type) where
  result : Except (FallbackError ε) α
  source : σ
  written : Bool
  cache : CacheState

/-- `RedisCache.GetWithFallback`. The fallback is a producer over a state `σ` that may fail.
`Get` and the decode of the fallback's JSON write into the same `target`. The goroutine is
run to its end: `cfl.set` says whether its `Set` fails. -/
def RedisCache.GetWithFallback {α σ ε : Type} (r : RedisCache) (c : Codec α)
    (cfl : CacheFaults) (st : CacheState) (key : String) (target : α)
    (fallback : σ → Except ε α × σ) (src : σ) (expiration : Int) : FallbackOutcome α σ ε :=
  match r.Get c cfl st key target with
  | (.ok _, target) => ⟨.ok target, src, false, st⟩
  | (.error _, target) =>
    match fallback src with
    | (.error e, src1) => ⟨.error (.fallback e), src1, false, st⟩
    | (.ok data, src1) =>
      match c.marshal data with
      | Option.none => ⟨.error .marshal, src1, false, st⟩
      | some dataBytes =>
        match c.unmarshalInto dataBytes target with
        | (false, _) => ⟨.error .parse, src1, false, st⟩
        | (true, v) => ⟨.ok v, src1, true, (r.Set c cfl st key data expiration).2⟩

/-- A fallback instrumented with the number of times it has been invoked. -/
def counting {α σ ε : Type} (fallback : σ → Except ε α × σ) :
    σ × Nat → Except ε α × (σ × Nat) :=
  fun p => ((fallback p.1).1, ((fallback p.1).2, p.2 + 1))

/-! ## `models/car.go`: the cached read -/

/-- Errors returned by `GetCarByID`: the error of `GetWithFallback` when the cache is
enabled, the error of the repository when it is not. -/
inductive GetError where
  | cache (e : FallbackError RepoError)
  | repo (e : RepoError)
  deriving DecidableEq, Repr

/-- `CarService.GetCarByID`: the result and the state it leaves. The target is the zero
`Car` of `var car Car`; the fallback reads the file system through `Repo.FindByID`. -/
def CarService.GetCarByID (s : CarService) (env : Env) (cfl : CacheFaults) (w : World)
    (id : String) : Except GetError Car × World :=
  match s.Cache with
  | some cache =>
    let fallback : FS → Except RepoError Car × FS :=
      fun fs => (s.Repo.FindByID env.cars fs id, fs)
    let out :=
      cache.GetWithFallback env.car cfl w.cache ("car:" ++ id) Car.zero fallback w.fs dayTTL
    match out.result with
    | .error e => (.error (.cache e), { fs := out.source, cache := out.cache })
    | .ok car => (.ok car, { fs := out.source, cache := out.cache })
  | Option.none =>
    match s.Repo.FindByID env.cars w.fs id with
    | .error e => (.error (.repo e), w)
    | .ok car => (.ok car, w)

/-- Two results agree: the same value on success, or a failure on both sides. -/
def sameOutcome {ε₁ ε₂ α : Type} (a : Except ε₁ α) (b : Except ε₂ α) : Prop :=
  match a, b with
  | .ok x, .ok y => x = y
  | .error _, .error _ => True
  | _, _ => False

/-! ## Sample data for instantiating the statements -/

/-- A codec given by a finite table of documents and their texts. A text of the table
decodes to its document whatever the target held; any other text is not well formed, and
its decode leaves the target as it was. -/
def tableCodec {α : Type} [DecidableEq α] (tbl : List (α × String)) : Codec α where
  marshal d := (tbl.find? (fun e => decide (e.1 = d))).map Prod.snd
  unmarshal t := (tbl.find? (fun e => decide (e.2 = t))).map Prod.fst
  unmarshalInto t target :=
    match tbl.find? (fun e => decide (e.2 = t)) with
    | some e => (true, e.1)
    | Option.none => (false, target)

/-- A repository on `data/cars.json`. -/
def sampleRepo : FileCarRepository := ⟨⟨"data"⟩, "cars.json"⟩

/-- A Toyota record. -/
def toyotaA : Car := { Car.zero with ID := "t1", Brand := "Toyota", Model := "Corolla", CreatedAt := 100 }

/-- A Honda record. -/
def hondaH : Car := { Car.zero with ID := "h1", Brand := "Honda", Model := "Civic", CreatedAt := 110 }

/-- A second Toyota record. -/
def toyotaB : Car := { Car.zero with ID := "t2", Brand := "Toyota", Model := "Yaris", CreatedAt := 120 }

/-- The first Toyota record with another model. -/
def toyotaA2 : Car := { toyotaA with Model := "Camry" }

/-- Texts of the sample collections. -/
def sampleCodec : Codec (List Car) :=
  tableCodec [([], "[]"), ([toyotaA], "[A]"), ([toyotaA, hondaH], "[A,H]"),
    ([toyotaA, hondaH, toyotaB], "[A,H,B]"), ([toyotaA2, hondaH], "[A2,H]"), ([hondaH], "[H]"),
    ([toyotaA, hondaH, toyotaA], "[A,H,A]")]

/-- The file system holding the collection `[toyotaA, hondaH]`. -/
def sampleFS : FS := fun q => if q = "data/cars.json" then some "[A,H]" else Option.none

/-- The file system reached from the empty one by creating `toyotaA`, `hondaH` and
`toyotaB`, in that order. -/
def scenarioFS : FS :=
  (sampleRepo.Create sampleCodec Faults.none
    (sampleRepo.Create sampleCodec Faults.none
      (sampleRepo.Create sampleCodec Faults.none FS.empty toyotaA).2 hondaH).2 toyotaB).2

/-- A file system whose main file is not a document and whose backup is `[toyotaA]`. -/
def corruptFS : FS := fun q =>
  if q = "data/cars.json" then some "oops"
  else if q = "data/cars.json.bak" then some "[A]" else Option.none

/-- A file system whose main file and backup are both not documents. -/
def corruptBothFS : FS := fun q =>
  if q = "data/cars.json" then some "oops"
  else if q = "data/cars.json.bak" then some "oops too" else Option.none

/-- A file system holding `[toyotaA, hondaH]` and the backup `[toyotaA]`. -/
def backupFS : FS := fun q =>
  if q = "data/cars.json" then some "[A,H]"
  else if q = "data/cars.json.bak" then some "[A]" else Option.none

/-- The write of the temporary file fails, every other call works. -/
def writeFault : Faults := ⟨false, false, true, false, false⟩

/-- The final rename fails, every other call works. -/
def renameFault : Faults := ⟨false, false, false, true, false⟩

/-- An update request for `t1` that carries only a model. -/
def camryRequest : Car := { Car.zero with ID := "t1", Model := "Camry" }

/-- What `camryRequest` becomes when the update happens at time `200`. -/
def camryStored : Car := { camryRequest with UpdatedAt := 200 }

/-- A creation request: brand and model only. -/
def corollaRequest : Car := { Car.zero with Brand := "Toyota", Model := "Corolla" }

/-- The record created from `corollaRequest` at time `100` with the sample UUID and clock. -/
def corollaCreated : Car :=
  { Car.zero with ID := "123e4567-cwyvpe", Brand := "Toyota", Model := "Corolla", CreatedAt := 100 }

/-- The body `{model: "Camry"}` after binding. -/
def modelOnlyBody : Car := { Car.zero with Model := "Camry" }

/-- What the update of `corollaCreated` with `modelOnlyBody` at time `200` stores. -/
def modelOnlyStored : Car :=
  { Car.zero with ID := "123e4567-cwyvpe", Model := "Camry", UpdatedAt := 200 }

/-- A body carrying the brand and the new model. -/
def brandModelBody : Car := { Car.zero with Brand := "Toyota", Model := "Camry" }

/-- What the update of `corollaCreated` with `brandModelBody` at time `200` stores. -/
def brandModelStored : Car :=
  { Car.zero with ID := "123e4567-cwyvpe", Brand := "Toyota", Model := "Camry", UpdatedAt := 200 }

/-- What `toyotaA2` becomes when the update happens at time `200`. -/
def toyotaA2Stored : Car := { toyotaA2 with UpdatedAt := 200 }

/-- A second creation request. -/
def civicRequest : Car := { Car.zero with Brand := "Honda", Model := "Civic" }

/-- The record created from `civicRequest` at time `101` with `otherUUID`, one nanosecond
after `sampleNano`. -/
def civicCreated : Car :=
  { Car.zero with ID := "123e4567-cwyvpe", Brand := "Honda", Model := "Civic", CreatedAt := 101 }

/-- Texts of the sample collections of the service scenarios. -/
def serviceCodec : Codec (List Car) :=
  tableCodec [([], "[]"), ([toyotaA, hondaH], "[A,H]"), ([camryStored, hondaH], "[U,H]"),
    ([toyotaA2Stored, hondaH], "[A2,H]"),
    ([corollaCreated], "[C]"), ([modelOnlyStored], "[M]"), ([brandModelStored], "[BM]"),
    ([corollaCreated, civicCreated], "[C,V]")]

/-- Texts of single records, for the cache. -/
def sampleCarCodec : Codec Car :=
  tableCodec [(corollaCreated, "C"), (modelOnlyStored, "M"), (brandModelStored, "BM"),
    (civicCreated, "V")]

/-- The sample JSON environment. -/
def sampleEnv : Env := ⟨serviceCodec, sampleCarCodec⟩

/-- A service on `sampleRepo` with the cache enabled. -/
def sampleService : CarService := ⟨sampleRepo, some ⟨"carinfo"⟩⟩

/-- No cache call fails. -/
def CacheFaults.none : CacheFaults := ⟨false, false, false⟩

/-- The state holding `[toyotaA, hondaH]` and an empty cache. -/
def sampleWorld : World := ⟨sampleFS, fun _ => Option.none⟩

/-- The state without files and with an empty cache. -/
def emptyWorld : World := ⟨FS.empty, fun _ => Option.none⟩

/-- The string of a sample UUID. -/
def sampleUUID : String := "123e4567-e89b-12d3-a456-426614174000"

/-- A sample `UnixNano` clock reading. -/
def sampleNano : Int := 1700000000000000000

/-- The state after creating `corollaRequest` in `emptyWorld` at time `100`. -/
def createdWorld : World :=
  match sampleService.CreateCar sampleEnv Faults.none CacheFaults.none emptyWorld sampleUUID
      sampleNano 100 corollaRequest with
  | some (_, _, w) => w
  | Option.none => emptyWorld

/-- The cache of the sample service. -/
def sampleCache : RedisCache := ⟨"carinfo"⟩

/-- The cache write fails, every other cache call works. -/
def setFault : CacheFaults := ⟨true, false, false⟩

/-- The cache read fails, every other cache call works. -/
def getFault : CacheFaults := ⟨false, true, false⟩

/-- The cache delete fails, every other cache call works. -/
def delFault : CacheFaults := ⟨false, false, true⟩

/-- Attempt outcomes: the first two cache writes fail, the later ones work. -/
def failTwice : Nat → CacheFaults := fun i => if i < 2 then setFault else CacheFaults.none

/-- Attempt outcomes: every cache write fails. -/
def failAlways : Nat → CacheFaults := fun _ => setFault

/-- The fallback of `GetCarByID` for the identifier of `corollaCreated`. -/
def sampleFallback : FS → Except RepoError Car × FS :=
  fun fs => (sampleRepo.FindByID serviceCodec fs "123e4567-cwyvpe", fs)

/-- The sample service with the cache disabled. -/
def plainService : CarService := ⟨sampleRepo, Option.none⟩

/-- The state after deleting `corollaCreated` from `createdWorld` while the cache delete
fails: the store is empty and the cache still holds the record. -/
def staleWorld : World :=
  (sampleService.DeleteCar sampleEnv Faults.none delFault createdWorld "123e4567-cwyvpe").2

/-- The string of a version-4 UUID. -/
def firstUUID : String := "123e4567-e89b-42d3-a456-426614174000"

/-- The string of another version-4 UUID, with the same first eight characters. -/
def otherUUID : String := "123e4567-aaaa-4bbb-8ccc-000000000000"

/-- The store of `createdWorld` with a cold cache. -/
def coldWorld : World := ⟨createdWorld.fs, fun _ => Option.none⟩

/-- The state after creating `civicRequest` in `createdWorld` with `otherUUID`, one
nanosecond after the first creation. -/
def collidedWorld : World :=
  match sampleService.CreateCar sampleEnv Faults.none CacheFaults.none createdWorld otherUUID
      1700000000000000001 101 civicRequest with
  | some (_, _, w) => w
  | Option.none => createdWorld

/-! ## A model of `encoding/json` on `Car`, for the sample texts -/

/-- One member of a JSON object, as `encoding/json` treats it when it decodes into a `Car`:
a member that sets a field, or a member whose value has not the type of its field. -/
inductive Member where
  | id (v : String)
  | brand (v : String)
  | model (v : String)
  | remarks (v : String)
  | createdAt (t : Time)
  | updatedAt (t : Time)
  | mismatch
  deriving DecidableEq, Repr

/-- What a member stores into the target; a member of the wrong type stores nothing. -/
def Member.store (m : Member) (car : Car) : Car :=
  match m with
  | .id v => { car with ID := v }
  | .brand v => { car with Brand := v }
  | .model v => { car with Model := v }
  | .remarks v => { car with Remarks := v }
  | .createdAt t => { car with CreatedAt := t }
  | .updatedAt t => { car with UpdatedAt := t }
  | .mismatch => car

/-- Whether the member has the type of its field. -/
def Member.fits (m : Member) : Bool :=
  match m with
  | .mismatch => false
  | _ => true

/-- Decoding an object into a target that holds `car`: every member that fits is stored,
the fields without a member keep what `car` held, and the decode succeeds when every member
fits. -/
def overlayCar (members : List Member) (car : Car) : Bool × Car :=
  (members.all Member.fits, members.foldl (fun c m => m.store c) car)

/-- Decoding an array into a slice that holds `cars`: the element of index `i` is decoded
into the element the slice holds there, or into a zero `Car` when it holds none; the slice
ends up with as many elements as the array. -/
def overlayCars : List (List Member) → List Car → Bool × List Car
  | [], _ => (true, [])
  | members :: rest, [] =>
    ((overlayCar members Car.zero).1 && (overlayCars rest []).1,
      (overlayCar members Car.zero).2 :: (overlayCars rest []).2)
  | members :: rest, car :: cars =>
    ((overlayCar members car).1 && (overlayCars rest cars).1,
      (overlayCar members car).2 :: (overlayCars rest cars).2)

/-- A codec given by the texts of some documents and by the members of some well-formed
texts; `overlay` decodes the members into a target and `zero` is the fresh target. A text
that is not listed is not well formed, and its decode leaves the target as it was. -/
def jsonCodec {α β : Type} [DecidableEq α] (texts : List (α × String))
    (parsed : List (String × β)) (overlay : β → α → Bool × α) (zero : α) : Codec α where
  marshal d := (texts.find? (fun e => decide (e.1 = d))).map Prod.snd
  unmarshal t :=
    match parsed.find? (fun e => decide (e.1 = t)) with
    | some e => if (overlay e.2 zero).1 then some (overlay e.2 zero).2 else Option.none
    | Option.none => Option.none
  unmarshalInto t target :=
    match parsed.find? (fun e => decide (e.1 = t)) with
    | some e => overlay e.2 target
    | Option.none => (false, target)

/-- The JSON of `corollaCreated`; the seven `omitempty` fields are zero and left out. -/
def corollaText : String :=
  "\x7b\"id\":\"123e4567-cwyvpe\",\"brand\":\"Toyota\",\"model\":\"Corolla\"," ++
    "\"createdAt\":\"0001-01-01T00:00:00.0000001Z\",\"updatedAt\":\"0001-01-01T00:00:00Z\"\x7d"

/-- The members of `corollaText`. -/
def corollaMembers : List Member :=
  [.id "123e4567-cwyvpe", .brand "Toyota", .model "Corolla", .createdAt 100, .updatedAt 0]

/-- A cache entry that is well-formed JSON and has a string where `mileage` takes a
number. -/
def staleText : String :=
  "\x7b\"id\":\"123e4567-cwyvpe\",\"remarks\":\"stale\",\"mileage\":\"n/a\"\x7d"

/-- The members of `staleText`. -/
def staleMembers : List Member := [.id "123e4567-cwyvpe", .remarks "stale", .mismatch]

/-- JSON at `*Car` on the two sample texts. -/
def jsonCar : Codec Car :=
  jsonCodec [(corollaCreated, corollaText)]
    [(corollaText, corollaMembers), (staleText, staleMembers)] overlayCar Car.zero

/-- The record `corollaCreated` with the remarks of the stale cache entry. -/
def staleCorolla : Car := { corollaCreated with Remarks := "stale" }

/-- A cache that holds `staleText` under the key of `corollaCreated`. -/
def pollutedCache : CacheState := fun k =>
  if k = "carinfo:car:123e4567-cwyvpe" then some (staleText, dayTTL) else Option.none

/-- The store of `createdWorld` with the polluted cache. -/
def pollutedWorld : World := ⟨createdWorld.fs, pollutedCache⟩

/-- The sample environment with the JSON model for the cache. -/
def jsonEnv : Env := ⟨serviceCodec, jsonCar⟩

/-- The JSON of the collection `[toyotaA]`. -/
def toyotaListText : String :=
  "[\x7b\"id\":\"t1\",\"brand\":\"Toyota\",\"model\":\"Corolla\"," ++
    "\"createdAt\":\"0001-01-01T00:00:00.0000001Z\",\"updatedAt\":\"0001-01-01T00:00:00Z\"\x7d]"

/-- The members of `toyotaListText`. -/
def toyotaListMembers : List (List Member) :=
  [[.id "t1", .brand "Toyota", .model "Corolla", .createdAt 100, .updatedAt 0]]

/-- A main file that is well-formed JSON and has a string where `mileage` takes a number. -/
def editedListText : String :=
  "[\x7b\"id\":\"t1\",\"remarks\":\"stale\",\"mileage\":\"n/a\"\x7d]"

/-- The members of `editedListText`. -/
def editedListMembers : List (List Member) := [[.id "t1", .remarks "stale", .mismatch]]

/-- JSON at `[]Car` on the two sample texts. -/
def jsonCars : Codec (List Car) :=
  jsonCodec [([toyotaA], toyotaListText)]
    [(toyotaListText, toyotaListMembers), (editedListText, editedListMembers)] overlayCars []

/-- The record `toyotaA` with the remarks of the edited main file. -/
def staleToyota : Car := { toyotaA with Remarks := "stale" }

/-- A file system whose main file is `editedListText` and whose backup is the JSON of
`[toyotaA]`. -/
def mergeFS : FS := fun q =>
  if q = "data/cars.json" then some editedListText
  else if q = "data/cars.json.bak" then some toyotaListText else Option.none

/-! ## Lemmas on paths and on the storage layer -/

theorem bak_ne_self (p : String) : p ++ ".bak" ≠ p := by
  intro h
  have h2 := congrArg String.length h
  simp [String.length_append] at h2
  exact absurd h2 (by decide)

theorem tmp_ne_self (p : String) : p ++ ".tmp" ≠ p := by
  intro h
  have h2 := congrArg String.length h
  simp [String.length_append] at h2
  exact absurd h2 (by decide)

theorem tmp_ne_bak (p : String) : p ++ ".tmp" ≠ p ++ ".bak" := by
  intro h
  have h2 := congrArg String.data h
  simp [String.data_append] at h2

theorem string_length_eq_zero (s : String) : s.length = 0 ↔ s = "" := by
  constructor
  · intro h
    cases s with
    | mk l =>
      have hl : l = [] := List.length_eq_zero.mp h
      subst hl
      rfl
  · rintro rfl
    rfl

/-- A lawful codec never marshals to the empty text. -/
theorem Codec.Lawful.marshal_ne_empty {α : Type} {c : Codec α} (hc : c.Lawful) {d : α}
    {json : String} (h : c.marshal d = some json) : json ≠ "" := by
  rintro rfl
  have h1 := hc.1 d "" h
  rw [hc.2] at h1
  exact Option.noConfusion h1

/-- What a successful `SaveJSON` leaves: the marshalled document at the path, no temporary
file, the prior content in the backup when there was a file and the backup rename worked,
every other path untouched. -/
theorem SaveJSON_ok_post {α : Type} (s : Storage) (c : Codec α) (fl : Faults) (fs : FS)
    (filename : String) (data : α)
    (h : (s.SaveJSON c fl fs filename data).1 = .ok ()) :
    ∃ json, c.marshal data = some json ∧
      (s.SaveJSON c fl fs filename data).2 (filepathJoin s.DataDir filename) = some json ∧
      (s.SaveJSON c fl fs filename data).2 (filepathJoin s.DataDir filename ++ ".tmp")
        = Option.none ∧
      (∀ old, fs (filepathJoin s.DataDir filename) = some old → fl.renameBak = false →
        (s.SaveJSON c fl fs filename data).2 (filepathJoin s.DataDir filename ++ ".bak")
          = some old) ∧
      (∀ q, q ≠ filepathJoin s.DataDir filename →
        q ≠ filepathJoin s.DataDir filename ++ ".tmp" →
        q ≠ filepathJoin s.DataDir filename ++ ".bak" →
        (s.SaveJSON c fl fs filename data).2 q = fs q) := by
  generalize hp : filepathJoin s.DataDir filename = p at *
  have hnb := bak_ne_self p
  have hnt := tmp_ne_self p
  have htb := tmp_ne_bak p
  unfold Storage.SaveJSON at h ⊢
  simp only [hp, Storage.FileExists, osExists] at h ⊢
  cases hmk : fl.mkdirAll
  case true => simp [hmk] at h
  case false =>
  cases hm : c.marshal data with
  | none => simp [hmk, hm] at h
  | some json =>
    refine ⟨json, rfl, ?_⟩
    cases hw : fl.writeTmp
    case true => simp [hmk, hm, osWriteFile, hw] at h
    case false =>
    cases hr : fl.renameTmp
    case true => simp [hmk, hm, osWriteFile, hw, osRename, hr] at h
    case false =>
    cases hfs : fs p with
    | none =>
      simp [hmk, hm, osWriteFile, hw, osRename, hr, hfs, hnt, hnt.symm]
      intro q h1 h2 _
      simp [h1, h2]
    | some old =>
      cases hb : fl.renameBak
      case true =>
        simp [hmk, hm, osWriteFile, hw, osRename, hr, hfs, hb, hnt, hnt.symm]
        intro q h1 h2 _
        simp [h1, h2]
      case false =>
        simp [hmk, hm, osWriteFile, hw, osRename, hr, hfs, hb, hnt, hnt.symm, hnb, hnb.symm,
          htb, htb.symm]
        intro q h1 h2 h3
        simp [h1, h2, h3]

/-- `LoadJSON` on a file whose non-empty content unmarshals. -/
theorem LoadJSON_of_content {α : Type} (s : Storage) (c : Codec α) (fs : FS)
    (filename : String) (target d : α) (json : String)
    (hfs : fs (filepathJoin s.DataDir filename) = some json) (hne : json ≠ "")
    (hd : c.unmarshal json = some d) :
    s.LoadJSON c fs filename target = .ok d := by
  have hlen : json.length ≠ 0 := fun h => hne ((string_length_eq_zero json).mp h)
  simp [Storage.LoadJSON, osExists, osReadFile, hfs, hlen, hd]

/-- `LoadJSON` when the file is absent. -/
theorem LoadJSON_absent {α : Type} (s : Storage) (c : Codec α) (fs : FS)
    (filename : String) (target : α)
    (hfs : fs (filepathJoin s.DataDir filename) = Option.none) :
    s.LoadJSON c fs filename target = .ok target := by
  simp [Storage.LoadJSON, osExists, hfs]

/-- `LoadJSON` when the file is empty. -/
theorem LoadJSON_empty {α : Type} (s : Storage) (c : Codec α) (fs : FS)
    (filename : String) (target : α)
    (hfs : fs (filepathJoin s.DataDir filename) = some "") :
    s.LoadJSON c fs filename target = .ok target := by
  simp [Storage.LoadJSON, osExists, osReadFile, hfs]

/-- Saving then loading gives the saved document back. -/
theorem LoadJSON_after_SaveJSON {α : Type} (s : Storage) (c : Codec α) (hc : c.Lawful)
    (fl : Faults) (fs : FS) (filename : String) (data target : α)
    (h : (s.SaveJSON c fl fs filename data).1 = .ok ()) :
    s.LoadJSON c (s.SaveJSON c fl fs filename data).2 filename target = .ok data := by
  obtain ⟨json, hm, hp, _⟩ := SaveJSON_ok_post s c fl fs filename data h
  exact LoadJSON_of_content s c _ filename target data json hp (hc.marshal_ne_empty hm)
    (hc.1 data json hm)

/-! ## Lemmas on the repository loops -/

theorem FindAll_after_SaveJSON (r : FileCarRepository) (c : Codec (List Car)) (hc : c.Lawful)
    (fl : Faults) (fs : FS) (cars : List Car)
    (h : (r.Storage.SaveJSON c fl fs r.FileName cars).1 = .ok ()) :
    r.FindAll c (r.Storage.SaveJSON c fl fs r.FileName cars).2 = .ok cars := by
  unfold FileCarRepository.FindAll
  rw [LoadJSON_after_SaveJSON r.Storage c hc fl fs r.FileName cars [] h]

theorem findByIDLoop_eq_none (id : String) (cars : List Car) :
    findByIDLoop id cars = Option.none ↔ ∀ x ∈ cars, x.ID ≠ id := by
  induction cars with
  | nil => simp [findByIDLoop]
  | cons c rest ih =>
    by_cases hc : c.ID = id
    · simp [findByIDLoop, hc]
    · simp [findByIDLoop, hc, ih]

theorem findByIDLoop_eq_some (id : String) (cars : List Car) (car : Car) :
    findByIDLoop id cars = some car ↔
      ∃ i : Nat, cars[i]? = some car ∧ car.ID = id ∧
        ∀ j : Nat, j < i → ∀ y : Car, cars[j]? = some y → y.ID ≠ id := by
  induction cars with
  | nil => simp [findByIDLoop]
  | cons c rest ih =>
    by_cases hc : c.ID = id
    · simp only [findByIDLoop, hc, if_true, Option.some.injEq]
      constructor
      · rintro rfl
        exact ⟨0, by simp, hc, fun j hj => absurd hj (Nat.not_lt_zero j)⟩
      · rintro ⟨i, hi, _, hmin⟩
        cases i with
        | zero => simpa using hi
        | succ k => exact absurd hc (hmin 0 (Nat.succ_pos k) c (by simp))
    · simp only [findByIDLoop, hc, if_false, ih]
      constructor
      · rintro ⟨i, hi, hid, hmin⟩
        refine ⟨i + 1, by simpa using hi, hid, ?_⟩
        intro j hj y hy
        cases j with
        | zero =>
          simp at hy
          subst hy
          exact hc
        | succ k => exact hmin k (Nat.lt_of_succ_lt_succ hj) y (by simpa using hy)
      · rintro ⟨i, hi, hid, hmin⟩
        cases i with
        | zero =>
          simp at hi
          subst hi
          exact absurd hid hc
        | succ k =>
          refine ⟨k, by simpa using hi, hid, ?_⟩
          intro j hj y hy
          exact hmin (j + 1) (Nat.succ_lt_succ hj) y (by simpa using hy)

theorem updateLoop_found (car : Car) (cars : List Car) :
    (updateLoop car cars).2 = true ↔ ∃ x ∈ cars, x.ID = car.ID := by
  induction cars with
  | nil => simp [updateLoop]
  | cons c rest ih =>
    by_cases hc : c.ID = car.ID
    · simp [updateLoop, hc]
    · simp [updateLoop, hc, ih]

theorem updateLoop_set (car : Car) (cars : List Car) (h : ∃ x ∈ cars, x.ID = car.ID) :
    ∃ i : Nat, (∃ x : Car, cars[i]? = some x ∧ x.ID = car.ID) ∧
      (∀ j : Nat, j < i → ∀ y : Car, cars[j]? = some y → y.ID ≠ car.ID) ∧
      (updateLoop car cars).1 = cars.set i car := by
  induction cars with
  | nil => simp at h
  | cons c rest ih =>
    by_cases hc : c.ID = car.ID
    · refine ⟨0, ⟨c, by simp, hc⟩, fun j hj => absurd hj (Nat.not_lt_zero j), ?_⟩
      simp [updateLoop, hc]
    · have hrest : ∃ x ∈ rest, x.ID = car.ID := by
        obtain ⟨x, hx, hid⟩ := h
        rcases List.mem_cons.mp hx with rfl | hx
        · exact absurd hid hc
        · exact ⟨x, hx, hid⟩
      obtain ⟨i, ⟨x, hx, hid⟩, hmin, hset⟩ := ih hrest
      refine ⟨i + 1, ⟨x, by simpa using hx, hid⟩, ?_, ?_⟩
      · intro j hj y hy
        cases j with
        | zero =>
          simp at hy
          subst hy
          exact hc
        | succ k => exact hmin k (Nat.lt_of_succ_lt_succ hj) y (by simpa using hy)
      · simp [updateLoop, hc, hset]

theorem deleteLoop_eq (id : String) (cars : List Car) (newCars : List Car) (found : Bool) :
    deleteLoop id cars (newCars, found) =
      (newCars ++ cars.filter (fun x => decide (x.ID ≠ id)),
        found || cars.any (fun x => decide (x.ID = id))) := by
  induction cars generalizing newCars found with
  | nil => simp [deleteLoop]
  | cons c rest ih =>
    by_cases hc : c.ID = id
    · simp [deleteLoop, hc, ih]
    · simp [deleteLoop, hc, ih]

theorem findByBrandLoop_eq (brand : String) (cars : List Car) (result : List Car) :
    findByBrandLoop brand cars result =
      result ++ cars.filter (fun x => decide (x.Brand = brand)) := by
  induction cars generalizing result with
  | nil => simp [findByBrandLoop]
  | cons c rest ih =>
    by_cases hc : c.Brand = brand
    · simp [findByBrandLoop, hc, ih]
    · simp [findByBrandLoop, hc, ih]

theorem tableCodec_lawful {α : Type} [DecidableEq α] (tbl : List (α × String))
    (hnd : (tbl.map Prod.snd).Nodup) (hne : ∀ e ∈ tbl, e.2 ≠ "") :
    (tableCodec tbl).Lawful := by
  constructor
  · intro d t h
    simp only [tableCodec, Option.map_eq_some'] at h ⊢
    obtain ⟨e, he, rfl⟩ := h
    have hmem : e ∈ tbl := List.mem_of_find?_eq_some he
    have hed : e.1 = d := by simpa using List.find?_some he
    cases hf : tbl.find? (fun x => decide (x.2 = e.2)) with
    | none =>
      have := List.find?_eq_none.mp hf e hmem
      simp at this
    | some e2 =>
      have hmem2 : e2 ∈ tbl := List.mem_of_find?_eq_some hf
      have h2 : e2.2 = e.2 := by simpa using List.find?_some hf
      have : e2 = e := List.inj_on_of_nodup_map hnd hmem2 hmem h2
      exact ⟨e2, rfl, by rw [this, hed]⟩
  · simp only [tableCodec, Option.map_eq_none']
    apply List.find?_eq_none.mpr
    intro e he
    simpa using hne e he

theorem sampleCodec_lawful : sampleCodec.Lawful := by
  apply tableCodec_lawful
  · decide
  · decide

/-- `Update` when some stored record has the identifier. -/
theorem Update_of_found (r : FileCarRepository) (c : Codec (List Car))
    (fl : Faults) (fs : FS) (car : Car) (cars : List Car)
    (hload : r.FindAll c fs = .ok cars) (hex : ∃ x ∈ cars, x.ID = car.ID) :
    ∃ i : Nat, (∃ x : Car, cars[i]? = some x ∧ x.ID = car.ID) ∧
      (∀ j : Nat, j < i → ∀ y : Car, cars[j]? = some y → y.ID ≠ car.ID) ∧
      (cars.set i car).length = cars.length ∧
      (cars.set i car)[i]? = some car ∧
      (∀ j : Nat, j ≠ i → (cars.set i car)[j]? = cars[j]?) ∧
      (r.Update c fl fs car).1
        = (r.Storage.SaveJSON c fl fs r.FileName (cars.set i car)).1.mapError RepoError.save ∧
      (r.Update c fl fs car).2 = (r.Storage.SaveJSON c fl fs r.FileName (cars.set i car)).2 ∧
      (c.Lawful → (r.Update c fl fs car).1 = .ok () →
        r.FindAll c (r.Update c fl fs car).2 = .ok (cars.set i car)) := by
  obtain ⟨i, hi, hmin, hset⟩ := updateLoop_set car cars hex
  have hfound := (updateLoop_found car cars).mpr hex
  have hpair : updateLoop car cars = (cars.set i car, true) := by
    rw [← hset, ← hfound]
  have hlt : i < cars.length := by
    obtain ⟨x, hx, _⟩ := hi
    exact (List.getElem?_eq_some_iff.mp hx).1
  have h1 : (r.Update c fl fs car).1
      = (r.Storage.SaveJSON c fl fs r.FileName (cars.set i car)).1.mapError RepoError.save := by
    simp only [FileCarRepository.Update, hload, hpair]
    rcases hs : r.Storage.SaveJSON c fl fs r.FileName (cars.set i car) with ⟨_ | _, fs1⟩ <;> rfl
  have h2 : (r.Update c fl fs car).2
      = (r.Storage.SaveJSON c fl fs r.FileName (cars.set i car)).2 := by
    simp only [FileCarRepository.Update, hload, hpair]
    rcases hs : r.Storage.SaveJSON c fl fs r.FileName (cars.set i car) with ⟨_ | _, fs1⟩ <;> rfl
  refine ⟨i, hi, hmin, by simp, by simp [hlt], ?_, h1, h2, ?_⟩
  · intro j hj
    simp [List.getElem?_set, Ne.symm hj]
  · intro hc hok
    rw [h2]
    apply FindAll_after_SaveJSON r c hc
    rw [h1] at hok
    rcases hs : (r.Storage.SaveJSON c fl fs r.FileName (cars.set i car)).1 with e | u
    · rw [hs] at hok
      exact Except.noConfusion hok
    · rfl

/-- `Update` when no stored record has the identifier. -/
theorem Update_of_not_found (r : FileCarRepository) (c : Codec (List Car))
    (fl : Faults) (fs : FS) (car : Car) (cars : List Car)
    (hload : r.FindAll c fs = .ok cars) (hno : ∀ x ∈ cars, x.ID ≠ car.ID) :
    r.Update c fl fs car = (.error (.notFound car.ID), fs) := by
  have hfound : (updateLoop car cars).2 = false := by
    cases hb : (updateLoop car cars).2 with
    | false => rfl
    | true =>
      obtain ⟨x, hx, hid⟩ := (updateLoop_found car cars).mp hb
      exact absurd hid (hno x hx)
  have hpair : updateLoop car cars = ((updateLoop car cars).1, false) := by
    rw [← hfound]
  simp only [FileCarRepository.Update, hload]
  rw [hpair]

/-! ## The repository operations (C1 to C5) -/

/-- C1. `Update` on a loadable collection `cars`: when some record has the identifier of
`car`, the collection handed to `SaveJSON` is `cars` with `car` written at the first index
`i` whose record has that identifier (same length, `car` at `i`, every other index as
before), the outcome of `Update` is the outcome of that save, and after a successful save
the stored collection is that list; when no record has the identifier, `Update` returns the
not-found error and the file system is untouched. -/
theorem update_replaces_first_match (r : FileCarRepository) (c : Codec (List Car))
    (fl : Faults) (fs : FS) (car : Car) (cars : List Car)
    (hload : r.FindAll c fs = .ok cars) :
    ((∃ x ∈ cars, x.ID = car.ID) →
      ∃ i : Nat, (∃ x : Car, cars[i]? = some x ∧ x.ID = car.ID) ∧
        (∀ j : Nat, j < i → ∀ y : Car, cars[j]? = some y → y.ID ≠ car.ID) ∧
        (cars.set i car).length = cars.length ∧
        (cars.set i car)[i]? = some car ∧
        (∀ j : Nat, j ≠ i → (cars.set i car)[j]? = cars[j]?) ∧
        (r.Update c fl fs car).1
          = (r.Storage.SaveJSON c fl fs r.FileName (cars.set i car)).1.mapError RepoError.save ∧
        (r.Update c fl fs car).2 = (r.Storage.SaveJSON c fl fs r.FileName (cars.set i car)).2 ∧
        (c.Lawful → (r.Update c fl fs car).1 = .ok () →
          r.FindAll c (r.Update c fl fs car).2 = .ok (cars.set i car))) ∧
    ((∀ x ∈ cars, x.ID ≠ car.ID) →
      r.Update c fl fs car = (.error (.notFound car.ID), fs)) := by
  exact ⟨Update_of_found r c fl fs car cars hload, Update_of_not_found r c fl fs car cars hload⟩

/-- C1 at the collection `[toyotaA, hondaH]`: updating with `toyotaA2` stores
`[toyotaA2, hondaH]`; updating with `toyotaB`, whose identifier is not stored, fails with
not-found and changes nothing. -/
theorem update_replaces_first_match_witness :
    sampleRepo.FindAll sampleCodec sampleFS = .ok [toyotaA, hondaH] ∧
    sampleRepo.FindAll sampleCodec (sampleRepo.Update sampleCodec Faults.none sampleFS toyotaA2).2
      = .ok [toyotaA2, hondaH] ∧
    sampleRepo.Update sampleCodec Faults.none sampleFS toyotaB
      = (.error (.notFound "t2"), sampleFS) := by
  have hload : sampleRepo.FindAll sampleCodec sampleFS = .ok [toyotaA, hondaH] := rfl
  refine ⟨hload, ?_, ?_⟩
  · obtain ⟨i, ⟨x, hx, hid⟩, _, _, _, _, _, _, hstored⟩ :=
      (update_replaces_first_match sampleRepo sampleCodec Faults.none sampleFS toyotaA2
        [toyotaA, hondaH] hload).1 ⟨toyotaA, by simp, rfl⟩
    have hi : i = 0 := by
      match i, hx with
      | 0, _ => rfl
      | 1, hx =>
        simp at hx
        subst hx
        exact absurd hid (by decide)
      | n + 2, hx => simp at hx
    subst hi
    exact hstored sampleCodec_lawful rfl
  · exact (update_replaces_first_match sampleRepo sampleCodec Faults.none sampleFS toyotaB
      [toyotaA, hondaH] hload).2 (by decide)

/-- C2. `Delete` on a loadable collection `cars`: it returns the not-found error exactly when
no record has identifier `id`, and then the file system is untouched; otherwise the
collection handed to `SaveJSON` is `cars` without the records whose identifier is `id`
(a filter, so the others keep their order), the outcome of `Delete` is the outcome of that
save, and after a successful save the stored collection is that list and `FindByID id` fails
with not-found. -/
theorem delete_filters_or_not_found (r : FileCarRepository) (c : Codec (List Car))
    (fl : Faults) (fs : FS) (id : String) (cars : List Car)
    (hload : r.FindAll c fs = .ok cars) :
    ((r.Delete c fl fs id).1 = .error (.notFound id) ↔ ∀ x ∈ cars, x.ID ≠ id) ∧
    ((∀ x ∈ cars, x.ID ≠ id) → r.Delete c fl fs id = (.error (.notFound id), fs)) ∧
    ((∃ x ∈ cars, x.ID = id) →
      (r.Delete c fl fs id).1
        = (r.Storage.SaveJSON c fl fs r.FileName
            (cars.filter (fun x => decide (x.ID ≠ id)))).1.mapError RepoError.save ∧
      (r.Delete c fl fs id).2
        = (r.Storage.SaveJSON c fl fs r.FileName
            (cars.filter (fun x => decide (x.ID ≠ id)))).2 ∧
      (c.Lawful → (r.Delete c fl fs id).1 = .ok () →
        r.FindAll c (r.Delete c fl fs id).2
          = .ok (cars.filter (fun x => decide (x.ID ≠ id))) ∧
        r.FindByID c (r.Delete c fl fs id).2 id = .error (.notFound id))) := by
  have hloop := deleteLoop_eq id cars [] false
  simp only [List.nil_append, Bool.false_or] at hloop
  have hnone : (∀ x ∈ cars, x.ID ≠ id) → r.Delete c fl fs id = (.error (.notFound id), fs) := by
    intro hno
    have hany : cars.any (fun x => decide (x.ID = id)) = false := by
      simpa [List.any_eq_false] using hno
    simp only [FileCarRepository.Delete, hload, hloop, hany]
  have hsome : (∃ x ∈ cars, x.ID = id) →
      (r.Delete c fl fs id).1
        = (r.Storage.SaveJSON c fl fs r.FileName
            (cars.filter (fun x => decide (x.ID ≠ id)))).1.mapError RepoError.save ∧
      (r.Delete c fl fs id).2
        = (r.Storage.SaveJSON c fl fs r.FileName
            (cars.filter (fun x => decide (x.ID ≠ id)))).2 := by
    intro hex
    have hany : cars.any (fun x => decide (x.ID = id)) = true := by
      simpa [List.any_eq_true] using hex
    constructor
    · simp only [FileCarRepository.Delete, hload, hloop, hany]
      rcases hs : r.Storage.SaveJSON c fl fs r.FileName
        (cars.filter (fun x => decide (x.ID ≠ id))) with ⟨_ | _, fs1⟩ <;> rfl
    · simp only [FileCarRepository.Delete, hload, hloop, hany]
      rcases hs : r.Storage.SaveJSON c fl fs r.FileName
        (cars.filter (fun x => decide (x.ID ≠ id))) with ⟨_ | _, fs1⟩ <;> rfl
  refine ⟨⟨?_, fun hno => by rw [hnone hno]⟩, hnone, ?_⟩
  · intro herr x hx hid
    have h1 := (hsome ⟨x, hx, hid⟩).1
    rw [herr] at h1
    rcases hs : (r.Storage.SaveJSON c fl fs r.FileName
        (cars.filter (fun x => decide (x.ID ≠ id)))).1 with e | u
    · rw [hs] at h1
      simp [Except.mapError] at h1
    · rw [hs] at h1
      simp [Except.mapError] at h1
  · intro hex
    obtain ⟨h1, h2⟩ := hsome hex
    refine ⟨h1, h2, ?_⟩
    intro hc hok
    have hsave : (r.Storage.SaveJSON c fl fs r.FileName
        (cars.filter (fun x => decide (x.ID ≠ id)))).1 = .ok () := by
      rw [h1] at hok
      rcases hs : (r.Storage.SaveJSON c fl fs r.FileName
          (cars.filter (fun x => decide (x.ID ≠ id)))).1 with e | u
      · rw [hs] at hok
        exact Except.noConfusion hok
      · rfl
    have hall : r.FindAll c (r.Delete c fl fs id).2
        = .ok (cars.filter (fun x => decide (x.ID ≠ id))) := by
      rw [h2]
      exact FindAll_after_SaveJSON r c hc fl fs _ hsave
    refine ⟨hall, ?_⟩
    have hnf : findByIDLoop id (cars.filter (fun x => decide (x.ID ≠ id))) = Option.none := by
      rw [findByIDLoop_eq_none]
      intro x hx
      simpa using (List.mem_filter.mp hx).2
    simp only [FileCarRepository.FindByID, hall, hnf]

/-- C2 at the collection `[toyotaA, hondaH]`: deleting `t1` stores `[hondaH]` and a following
`FindByID "t1"` fails with not-found; deleting `zz` fails with not-found and changes
nothing. -/
theorem delete_filters_or_not_found_witness :
    sampleRepo.FindAll sampleCodec sampleFS = .ok [toyotaA, hondaH] ∧
    (sampleRepo.FindAll sampleCodec (sampleRepo.Delete sampleCodec Faults.none sampleFS "t1").2
        = .ok ([toyotaA, hondaH].filter (fun x => decide (x.ID ≠ "t1"))) ∧
      sampleRepo.FindByID sampleCodec (sampleRepo.Delete sampleCodec Faults.none sampleFS "t1").2
        "t1" = .error (.notFound "t1")) ∧
    sampleRepo.Delete sampleCodec Faults.none sampleFS "zz"
      = (.error (.notFound "zz"), sampleFS) := by
  have hload : sampleRepo.FindAll sampleCodec sampleFS = .ok [toyotaA, hondaH] := rfl
  have h := delete_filters_or_not_found sampleRepo sampleCodec Faults.none sampleFS
  exact ⟨hload, ((h "t1" _ hload).2.2 ⟨toyotaA, by simp, rfl⟩).2.2 sampleCodec_lawful rfl,
    (h "zz" _ hload).2.1 (by decide)⟩

/-- C3. `Create` on a loadable collection `cars`: the collection handed to `SaveJSON` is
`cars` followed by the record, the outcome of `Create` is the outcome of that save whatever
identifiers `cars` holds (so it is never the not-found error and there is no duplicate
check), after a successful save the stored collection is `cars ++ [car]`, and an absent
backing file loads as the empty collection. -/
theorem create_appends (r : FileCarRepository) (c : Codec (List Car))
    (fl : Faults) (fs : FS) (car : Car) (cars : List Car)
    (hload : r.FindAll c fs = .ok cars) :
    (r.Create c fl fs car).1
      = (r.Storage.SaveJSON c fl fs r.FileName (cars ++ [car])).1.mapError RepoError.save ∧
    (r.Create c fl fs car).2 = (r.Storage.SaveJSON c fl fs r.FileName (cars ++ [car])).2 ∧
    (c.Lawful → (r.Create c fl fs car).1 = .ok () →
      r.FindAll c (r.Create c fl fs car).2 = .ok (cars ++ [car])) ∧
    (fs (filepathJoin r.Storage.DataDir r.FileName) = Option.none → cars = []) := by
  have h1 : (r.Create c fl fs car).1
      = (r.Storage.SaveJSON c fl fs r.FileName (cars ++ [car])).1.mapError RepoError.save := by
    simp only [FileCarRepository.Create, hload]
    rcases hs : r.Storage.SaveJSON c fl fs r.FileName (cars ++ [car]) with ⟨_ | _, fs1⟩ <;> rfl
  have h2 : (r.Create c fl fs car).2
      = (r.Storage.SaveJSON c fl fs r.FileName (cars ++ [car])).2 := by
    simp only [FileCarRepository.Create, hload]
    rcases hs : r.Storage.SaveJSON c fl fs r.FileName (cars ++ [car]) with ⟨_ | _, fs1⟩ <;> rfl
  refine ⟨h1, h2, ?_, ?_⟩
  · intro hc hok
    rw [h2]
    apply FindAll_after_SaveJSON r c hc
    rw [h1] at hok
    rcases hs : (r.Storage.SaveJSON c fl fs r.FileName (cars ++ [car])).1 with e | u
    · rw [hs] at hok
      exact Except.noConfusion hok
    · rfl
  · intro habs
    have h := LoadJSON_absent r.Storage c fs r.FileName ([] : List Car) habs
    simp only [FileCarRepository.FindAll, h] at hload
    exact (Except.ok.inj hload).symm

/-- C3 on an absent file and on a collection that already holds the identifier: creating
`toyotaA` in the empty file system stores `[toyotaA]`; the outcome of creating `toyotaA`
again in `[toyotaA, hondaH]` is that of saving `[toyotaA, hondaH, toyotaA]`. -/
theorem create_appends_witness :
    sampleRepo.FindAll sampleCodec FS.empty = .ok [] ∧
    sampleRepo.FindAll sampleCodec (sampleRepo.Create sampleCodec Faults.none FS.empty toyotaA).2
      = .ok ([] ++ [toyotaA]) ∧
    sampleRepo.FindAll sampleCodec sampleFS = .ok [toyotaA, hondaH] ∧
    (sampleRepo.Create sampleCodec Faults.none sampleFS toyotaA).1
      = (sampleRepo.Storage.SaveJSON sampleCodec Faults.none sampleFS sampleRepo.FileName
          ([toyotaA, hondaH] ++ [toyotaA])).1.mapError RepoError.save :=
  ⟨rfl,
    (create_appends sampleRepo sampleCodec Faults.none FS.empty toyotaA [] rfl).2.2.1
      sampleCodec_lawful rfl,
    rfl,
    (create_appends sampleRepo sampleCodec Faults.none sampleFS toyotaA [toyotaA, hondaH] rfl).1⟩

/-- C4. `FindByID` on a loadable collection `cars`: it returns `car` exactly when `car` is
the first record in collection order whose identifier is `id`; it returns the not-found
error exactly when no record has identifier `id`, and that is the only way it fails; on an
absent or empty backing file it returns not-found. -/
theorem findByID_first_match (r : FileCarRepository) (c : Codec (List Car))
    (fs : FS) (id : String) (cars : List Car)
    (hload : r.FindAll c fs = .ok cars) :
    (∀ car : Car, r.FindByID c fs id = .ok car ↔
      ∃ i : Nat, cars[i]? = some car ∧ car.ID = id ∧
        ∀ j : Nat, j < i → ∀ y : Car, cars[j]? = some y → y.ID ≠ id) ∧
    (r.FindByID c fs id = .error (.notFound id) ↔ ∀ x ∈ cars, x.ID ≠ id) ∧
    (∀ e : RepoError, r.FindByID c fs id = .error e → e = .notFound id) ∧
    (fs (filepathJoin r.Storage.DataDir r.FileName) = Option.none ∨
      fs (filepathJoin r.Storage.DataDir r.FileName) = some "" →
      r.FindByID c fs id = .error (.notFound id)) := by
  have hnf : r.FindByID c fs id = .error (.notFound id) ↔ ∀ x ∈ cars, x.ID ≠ id := by
    rw [← findByIDLoop_eq_none]
    simp only [FileCarRepository.FindByID, hload]
    cases hf : findByIDLoop id cars <;> simp
  refine ⟨?_, hnf, ?_, ?_⟩
  · intro car
    rw [← findByIDLoop_eq_some]
    simp only [FileCarRepository.FindByID, hload]
    cases hf : findByIDLoop id cars <;> simp
  · intro e he
    simp only [FileCarRepository.FindByID, hload] at he
    cases hf : findByIDLoop id cars with
    | none =>
      rw [hf] at he
      exact (Except.error.inj he).symm
    | some car =>
      rw [hf] at he
      exact Except.noConfusion he
  · intro hfile
    have hempty : r.Storage.LoadJSON c fs r.FileName ([] : List Car) = .ok [] := by
      rcases hfile with h | h
      · exact LoadJSON_absent r.Storage c fs r.FileName [] h
      · exact LoadJSON_empty r.Storage c fs r.FileName [] h
    simp only [FileCarRepository.FindAll, hempty] at hload
    have hnil : cars = [] := (Except.ok.inj hload).symm
    subst hnil
    exact hnf.mpr (by simp)

/-- C4 at the collection `[toyotaA, hondaH]`: `FindByID "h1"` returns `hondaH`, and
`FindByID "zz"` fails with not-found. -/
theorem findByID_first_match_witness :
    sampleRepo.FindAll sampleCodec sampleFS = .ok [toyotaA, hondaH] ∧
    sampleRepo.FindByID sampleCodec sampleFS "h1" = .ok hondaH ∧
    sampleRepo.FindByID sampleCodec sampleFS "zz" = .error (.notFound "zz") := by
  have h := findByID_first_match sampleRepo sampleCodec sampleFS
  refine ⟨rfl, ((h "h1" _ rfl).1 hondaH).mpr ⟨1, rfl, rfl, ?_⟩, (h "zz" _ rfl).2.1.mpr (by decide)⟩
  intro j hj y hy
  have hj0 : j = 0 := by omega
  subst hj0
  simp at hy
  subst hy
  decide

/-- C5. `FindByBrand` on a loadable collection `cars` succeeds, and its result is the
records of `cars` whose brand is `brand`, in the order of `cars`; when there is none the
result is the empty sequence, returned as success. -/
theorem findByBrand_filters (r : FileCarRepository) (c : Codec (List Car))
    (fs : FS) (brand : String) (cars : List Car)
    (hload : r.FindAll c fs = .ok cars) :
    r.FindByBrand c fs brand = .ok (cars.filter (fun x => decide (x.Brand = brand))) ∧
    ((∀ x ∈ cars, x.Brand ≠ brand) → r.FindByBrand c fs brand = .ok []) := by
  have h : r.FindByBrand c fs brand
      = .ok (cars.filter (fun x => decide (x.Brand = brand))) := by
    simp only [FileCarRepository.FindByBrand, hload, findByBrandLoop_eq, List.nil_append]
  refine ⟨h, ?_⟩
  intro hno
  rw [h]
  congr 1
  simpa [List.filter_eq_nil_iff] using hno

/-- C5, the scenario: after creating two Toyota records and one Honda record,
`FindByBrand "Toyota"` returns the two Toyota records in insertion order, and
`FindByBrand "Fiat"` succeeds with the empty sequence. -/
theorem findByBrand_filters_witness :
    sampleRepo.FindAll sampleCodec scenarioFS = .ok [toyotaA, hondaH, toyotaB] ∧
    sampleRepo.FindByBrand sampleCodec scenarioFS "Toyota" = .ok [toyotaA, toyotaB] ∧
    sampleRepo.FindByBrand sampleCodec scenarioFS "Fiat" = .ok [] :=
  ⟨rfl,
    (findByBrand_filters sampleRepo sampleCodec scenarioFS "Toyota"
      [toyotaA, hondaH, toyotaB] rfl).1,
    (findByBrand_filters sampleRepo sampleCodec scenarioFS "Fiat"
      [toyotaA, hondaH, toyotaB] rfl).2 (by decide)⟩

/-! ## The storage layer (C6 to C8) -/

set_option maxRecDepth 8000 in
/-- C6, the code at a failing input. The main file is well-formed JSON that does not
decode into `[]Car` (a string where `mileage` takes a number) and the backup is the JSON of
`[toyotaA]`. `LoadJSON` decodes the backup into the target the failed decode of the main
file has written to: it succeeds, and returns `toyotaA` with the remarks of the main file,
not the document of the backup. (With a main file that is not well formed, as in
`corruptFS`, the target is untouched and the backup's document is returned; with both files
not well formed the call fails.) -/
theorem loadJSON_recovery_returns_merge :
    mergeFS "data/cars.json" = some editedListText ∧
    mergeFS "data/cars.json.bak" = some toyotaListText ∧
    jsonCars.unmarshal editedListText = Option.none ∧
    jsonCars.unmarshalInto editedListText []
      = (false, [{ Car.zero with ID := "t1", Remarks := "stale" }]) ∧
    jsonCars.unmarshal toyotaListText = some [toyotaA] ∧
    sampleRepo.Storage.LoadJSON jsonCars mergeFS "cars.json" [] = .ok [staleToyota] ∧
    sampleRepo.FindAll jsonCars mergeFS = .ok [staleToyota] ∧
    toyotaA.Remarks = "" ∧ staleToyota.Remarks = "stale" ∧
    [staleToyota] ≠ [toyotaA] ∧
    sampleRepo.Storage.LoadJSON sampleCodec corruptFS "cars.json" [] = .ok [toyotaA] ∧
    sampleRepo.Storage.LoadJSON sampleCodec corruptBothFS "cars.json" [] = .error .parse :=
  ⟨rfl, rfl, rfl, rfl, rfl, rfl, rfl, rfl, rfl, by decide, rfl, rfl⟩

/-- C7, the code at a failing input. The file `data/cars.json` holds `[A,H]` and its backup
`[A]`. When the write of the temporary file fails, and likewise when the final rename fails,
`SaveJSON` returns an error, `data/cars.json` no longer exists and the backup holds `[A,H]`:
the prior file was renamed to the backup before the write and is not put back. -/
theorem saveJSON_failure_moves_file_away :
    backupFS "data/cars.json" = some "[A,H]" ∧
    backupFS "data/cars.json.bak" = some "[A]" ∧
    (sampleRepo.Storage.SaveJSON sampleCodec writeFault backupFS "cars.json" [hondaH]).1
      = .error .writeTemp ∧
    (sampleRepo.Storage.SaveJSON sampleCodec writeFault backupFS "cars.json" [hondaH]).2
      "data/cars.json" = Option.none ∧
    (sampleRepo.Storage.SaveJSON sampleCodec writeFault backupFS "cars.json" [hondaH]).2
      "data/cars.json.bak" = some "[A,H]" ∧
    (sampleRepo.Storage.SaveJSON sampleCodec renameFault backupFS "cars.json" [hondaH]).1
      = .error .rename ∧
    (sampleRepo.Storage.SaveJSON sampleCodec renameFault backupFS "cars.json" [hondaH]).2
      "data/cars.json" = Option.none ∧
    (sampleRepo.Storage.SaveJSON sampleCodec renameFault backupFS "cars.json" [hondaH]).2
      "data/cars.json.bak" = some "[A,H]" ∧
    sampleRepo.FindAll sampleCodec
      (sampleRepo.Storage.SaveJSON sampleCodec writeFault backupFS "cars.json" [hondaH]).2
      = .ok [] :=
  ⟨rfl, rfl, rfl, rfl, rfl, rfl, rfl, rfl, rfl⟩

/-- C8. When `SaveJSON filename data` succeeds, with a codec whose unmarshalling inverts its
marshalling (and for which the empty text is no document): a following `LoadJSON filename`
succeeds with `data`, the temporary file does not exist, and when the file existed before
with content `old` and the backup rename did not fail, the backup holds `old`. -/
theorem save_load_round_trip {α : Type} (s : Storage) (c : Codec α) (hc : c.Lawful)
    (fl : Faults) (fs : FS) (filename : String) (data target : α)
    (hok : (s.SaveJSON c fl fs filename data).1 = .ok ()) :
    s.LoadJSON c (s.SaveJSON c fl fs filename data).2 filename target = .ok data ∧
    (s.SaveJSON c fl fs filename data).2 (filepathJoin s.DataDir filename ++ ".tmp")
      = Option.none ∧
    (∀ old, fs (filepathJoin s.DataDir filename) = some old → fl.renameBak = false →
      (s.SaveJSON c fl fs filename data).2 (filepathJoin s.DataDir filename ++ ".bak")
        = some old) := by
  obtain ⟨json, _, _, htmp, hbak, _⟩ := SaveJSON_ok_post s c fl fs filename data hok
  exact ⟨LoadJSON_after_SaveJSON s c hc fl fs filename data target hok, htmp, hbak⟩

/-- C8 on `data/cars.json` holding `[A,H]`: saving `[hondaH]` succeeds, loading gives
`[hondaH]` back, no temporary file is left and the backup holds `[A,H]`. -/
theorem save_load_round_trip_witness :
    (sampleRepo.Storage.SaveJSON sampleCodec Faults.none backupFS "cars.json" [hondaH]).1
      = .ok () ∧
    sampleRepo.Storage.LoadJSON sampleCodec
      (sampleRepo.Storage.SaveJSON sampleCodec Faults.none backupFS "cars.json" [hondaH]).2
      "cars.json" [] = .ok [hondaH] ∧
    (sampleRepo.Storage.SaveJSON sampleCodec Faults.none backupFS "cars.json" [hondaH]).2
      (filepathJoin sampleRepo.Storage.DataDir "cars.json" ++ ".tmp") = Option.none ∧
    (sampleRepo.Storage.SaveJSON sampleCodec Faults.none backupFS "cars.json" [hondaH]).2
      (filepathJoin sampleRepo.Storage.DataDir "cars.json" ++ ".bak") = some "[A,H]" := by
  have h := save_load_round_trip sampleRepo.Storage sampleCodec sampleCodec_lawful Faults.none
    backupFS "cars.json" [hondaH] [] rfl
  exact ⟨rfl, h.1, h.2.1, h.2.2 "[A,H]" rfl rfl⟩

/-! ## Lemmas on the service -/

theorem serviceCodec_lawful : serviceCodec.Lawful := by
  apply tableCodec_lawful
  · decide
  · decide

/-- A successful `Update` found a record with the identifier in a loadable collection. -/
theorem Update_ok_found (r : FileCarRepository) (c : Codec (List Car))
    (fl : Faults) (fs : FS) (car : Car) (hok : (r.Update c fl fs car).1 = .ok ()) :
    ∃ cars, r.FindAll c fs = .ok cars ∧ ∃ x ∈ cars, x.ID = car.ID := by
  cases hl : r.FindAll c fs with
  | error e =>
    simp [FileCarRepository.Update, hl] at hok
  | ok cars =>
    refine ⟨cars, rfl, ?_⟩
    by_contra hno
    have hno2 : ∀ x ∈ cars, x.ID ≠ car.ID := fun x hx hid => hno ⟨x, hx, hid⟩
    rw [Update_of_not_found r c fl fs car cars hl hno2] at hok
    exact Except.noConfusion hok

/-- After a successful `Update`, `FindByID` returns the record that was passed. -/
theorem Update_ok_stored (r : FileCarRepository) (c : Codec (List Car)) (hc : c.Lawful)
    (fl : Faults) (fs : FS) (car : Car) (hok : (r.Update c fl fs car).1 = .ok ()) :
    r.FindByID c (r.Update c fl fs car).2 car.ID = .ok car := by
  obtain ⟨cars, hl, hex⟩ := Update_ok_found r c fl fs car hok
  obtain ⟨i, ⟨x, hx, _⟩, hmin, _, hat, hother, _, _, hstored⟩ :=
    Update_of_found r c fl fs car cars hl hex
  have hall := hstored hc hok
  have hloop : findByIDLoop car.ID (cars.set i car) = some car := by
    rw [findByIDLoop_eq_some]
    refine ⟨i, hat, rfl, ?_⟩
    intro j hj y hy
    rw [hother j (Nat.ne_of_lt hj)] at hy
    exact hmin j hj y hy
  simp only [FileCarRepository.FindByID, hall, hloop]

/-- After a successful `Create`, the stored collection is the prior one and the record. -/
theorem Create_ok_stored (r : FileCarRepository) (c : Codec (List Car)) (hc : c.Lawful)
    (fl : Faults) (fs : FS) (car : Car) (hok : (r.Create c fl fs car).1 = .ok ()) :
    ∃ cars, r.FindAll c fs = .ok cars ∧ r.FindAll c (r.Create c fl fs car).2 = .ok (cars ++ [car]) := by
  cases hl : r.FindAll c fs with
  | error e =>
    simp [FileCarRepository.Create, hl] at hok
  | ok cars =>
    refine ⟨cars, rfl, ?_⟩
    have hsave : (r.Storage.SaveJSON c fl fs r.FileName (cars ++ [car])).1 = .ok () := by
      simp only [FileCarRepository.Create, hl] at hok
      rcases hs : r.Storage.SaveJSON c fl fs r.FileName (cars ++ [car]) with ⟨e | u, fs1⟩
      · rw [hs] at hok
        exact Except.noConfusion hok
      · rfl
    have h2 : (r.Create c fl fs car).2
        = (r.Storage.SaveJSON c fl fs r.FileName (cars ++ [car])).2 := by
      simp only [FileCarRepository.Create, hl]
      rcases hs : r.Storage.SaveJSON c fl fs r.FileName (cars ++ [car]) with ⟨_ | _, fs1⟩ <;> rfl
    rw [h2]
    exact FindAll_after_SaveJSON r c hc fl fs _ hsave

theorem UpdateCar_result (s : CarService) (env : Env) (fl : Faults) (cfl : CacheFaults)
    (w : World) (now : Time) (car : Car) :
    (s.UpdateCar env fl cfl w now car).1
      = (s.Repo.Update env.cars fl w.fs { car with UpdatedAt := now }).1 ∧
    (s.UpdateCar env fl cfl w now car).2.1 = { car with UpdatedAt := now } ∧
    (s.UpdateCar env fl cfl w now car).2.2.fs
      = (s.Repo.Update env.cars fl w.fs { car with UpdatedAt := now }).2 := by
  simp only [CarService.UpdateCar]
  rcases hu : s.Repo.Update env.cars fl w.fs { car with UpdatedAt := now } with ⟨e | u, fs1⟩
  · exact ⟨rfl, rfl, rfl⟩
  · cases hcache : s.Cache <;> exact ⟨rfl, rfl, rfl⟩

/-- What a successful `CreateCar` did. -/
theorem CreateCar_ok (s : CarService) (env : Env) (fl : Faults) (cfl : CacheFaults)
    (w : World) (uuid : String) (timestamp : Int) (now : Time) (car created : Car) (w1 : World)
    (h : s.CreateCar env fl cfl w uuid timestamp now car = some (.ok (), created, w1)) :
    ∃ id, GenerateID uuid timestamp = some id ∧
      created = { car with ID := id, CreatedAt := now } ∧
      (s.Repo.Create env.cars fl w.fs created).1 = .ok () ∧
      w1.fs = (s.Repo.Create env.cars fl w.fs created).2 := by
  unfold CarService.CreateCar at h
  cases hg : GenerateID uuid timestamp with
  | none => simp [hg] at h
  | some id =>
    simp only [hg] at h
    rcases hcr : s.Repo.Create env.cars fl w.fs { car with ID := id, CreatedAt := now }
      with ⟨e | u, fs1⟩
    · rw [hcr] at h
      simp at h
    · rw [hcr] at h
      cases hcache : s.Cache with
      | none =>
        simp only [hcache, Option.some.injEq, Prod.mk.injEq] at h
        obtain ⟨_, hc, hw⟩ := h
        subst hc
        subst hw
        exact ⟨id, rfl, rfl, by rw [hcr], by rw [hcr]⟩
      | some cache =>
        simp only [hcache, Option.some.injEq, Prod.mk.injEq] at h
        obtain ⟨_, hc, hw⟩ := h
        subst hc
        subst hw
        exact ⟨id, rfl, rfl, by rw [hcr], by rw [hcr]⟩

theorem Controller_UpdateCar_ok (svc : CarService) (env : Env) (fl : Faults) (cfl : CacheFaults)
    (w : World) (now : Time) (id : String) (body car : Car)
    (h : (CarController.UpdateCar svc env fl cfl w now id (some body)).1 = .ok car) :
    (svc.UpdateCar env fl cfl w now { body with ID := id }).1 = .ok () ∧
    car = (svc.UpdateCar env fl cfl w now { body with ID := id }).2.1 ∧
    (CarController.UpdateCar svc env fl cfl w now id (some body)).2
      = (svc.UpdateCar env fl cfl w now { body with ID := id }).2.2 := by
  simp only [CarController.UpdateCar] at h ⊢
  rcases hu : svc.UpdateCar env fl cfl w now { body with ID := id } with ⟨e | u, car1, w1⟩
  · rw [hu] at h
    simp at h
  · rw [hu] at h
    simp only [Response.ok.injEq] at h
    exact ⟨rfl, h.symm, rfl⟩

/-! ## The service (C9 and C10) -/

/-- C9 as stated fails: `toyotaA` is stored with creation timestamp `100`; the update
request `camryRequest` carries its identifier and no creation timestamp; `UpdateCar`
succeeds and the record then stored under the identifier has creation timestamp `0`. -/
theorem updateCar_overwrites_createdAt :
    sampleService.Repo.FindAll sampleEnv.cars sampleWorld.fs = .ok [toyotaA, hondaH] ∧
    camryRequest.ID = toyotaA.ID ∧
    (sampleService.UpdateCar sampleEnv Faults.none CacheFaults.none sampleWorld 200
      camryRequest).1 = .ok () ∧
    sampleService.Repo.FindByID sampleEnv.cars
      (sampleService.UpdateCar sampleEnv Faults.none CacheFaults.none sampleWorld 200
        camryRequest).2.2.fs toyotaA.ID = .ok camryStored ∧
    toyotaA.CreatedAt = 100 ∧
    camryStored.CreatedAt = 0 ∧
    camryStored.CreatedAt ≠ toyotaA.CreatedAt :=
  ⟨rfl, rfl, rfl, rfl, rfl, rfl, by decide⟩

/-- C9, amended. For a stored record `r` and an update request `u` carrying the identifier
of `r`: after a successful `UpdateCar u` at clock reading `now`, the record stored under that
identifier is `u` with its update timestamp set to `now`; its creation timestamp is the one
`u` carries, so it is the one `r` had whenever `u` carries that one. -/
theorem updateCar_keeps_request_createdAt (svc : CarService) (env : Env)
    (hc : env.cars.Lawful) (fl : Faults) (cfl : CacheFaults) (w : World) (now : Time)
    (u r : Car) (cars : List Car)
    (_hload : svc.Repo.FindAll env.cars w.fs = .ok cars) (_hr : r ∈ cars) (hid : u.ID = r.ID)
    (hok : (svc.UpdateCar env fl cfl w now u).1 = .ok ()) :
    ∃ stored : Car,
      svc.Repo.FindByID env.cars (svc.UpdateCar env fl cfl w now u).2.2.fs r.ID = .ok stored ∧
      stored = { u with UpdatedAt := now } ∧
      stored.CreatedAt = u.CreatedAt ∧
      (u.CreatedAt = r.CreatedAt → stored.CreatedAt = r.CreatedAt) := by
  obtain ⟨h1, _, h3⟩ := UpdateCar_result svc env fl cfl w now u
  rw [h1] at hok
  have hst := Update_ok_stored svc.Repo env.cars hc fl w.fs { u with UpdatedAt := now } hok
  rw [← h3] at hst
  have hkey : svc.Repo.FindByID env.cars (svc.UpdateCar env fl cfl w now u).2.2.fs r.ID
      = svc.Repo.FindByID env.cars (svc.UpdateCar env fl cfl w now u).2.2.fs u.ID := by
    rw [hid]
  exact ⟨{ u with UpdatedAt := now }, hkey.trans hst, rfl, rfl, fun h => h⟩

/-- C9, amended, at `[toyotaA, hondaH]`: the request `toyotaA2` carries the creation
timestamp of `toyotaA`, and the stored record keeps it. -/
theorem updateCar_keeps_request_createdAt_witness :
    (sampleService.Repo.FindAll sampleEnv.cars sampleWorld.fs = .ok [toyotaA, hondaH] ∧
      toyotaA ∈ [toyotaA, hondaH] ∧ toyotaA2.ID = toyotaA.ID ∧
      (sampleService.UpdateCar sampleEnv Faults.none CacheFaults.none sampleWorld 200
        toyotaA2).1 = .ok ()) ∧
    ∃ stored : Car,
      sampleService.Repo.FindByID sampleEnv.cars
        (sampleService.UpdateCar sampleEnv Faults.none CacheFaults.none sampleWorld 200
          toyotaA2).2.2.fs toyotaA.ID = .ok stored ∧
      stored = { toyotaA2 with UpdatedAt := 200 } ∧
      stored.CreatedAt = toyotaA2.CreatedAt ∧
      (toyotaA2.CreatedAt = toyotaA.CreatedAt → stored.CreatedAt = toyotaA.CreatedAt) :=
  ⟨⟨rfl, by decide, rfl, rfl⟩,
    updateCar_keeps_request_createdAt sampleService sampleEnv serviceCodec_lawful Faults.none
      CacheFaults.none sampleWorld 200 toyotaA2 toyotaA [toyotaA, hondaH] rfl (by decide) rfl rfl⟩

/-- C10 as stated fails: `corollaCreated` is created through the service with brand
`Toyota` and model `Corolla`; the update with the same identifier and the body
`{model: "Camry"}` returns and stores a record whose brand is empty. -/
theorem update_model_only_drops_brand :
    sampleService.CreateCar sampleEnv Faults.none CacheFaults.none emptyWorld sampleUUID
      sampleNano 100 corollaRequest = some (.ok (), corollaCreated, createdWorld) ∧
    corollaCreated.Brand = "Toyota" ∧ corollaCreated.Model = "Corolla" ∧
    modelOnlyBody = { Car.zero with Model := "Camry" } ∧
    (CarController.UpdateCar sampleService sampleEnv Faults.none CacheFaults.none createdWorld
      200 corollaCreated.ID (some modelOnlyBody)).1 = .ok modelOnlyStored ∧
    sampleService.Repo.FindByID sampleEnv.cars
      (CarController.UpdateCar sampleService sampleEnv Faults.none CacheFaults.none createdWorld
        200 corollaCreated.ID (some modelOnlyBody)).2.fs corollaCreated.ID
      = .ok modelOnlyStored ∧
    modelOnlyStored.Brand = "" ∧
    modelOnlyStored.Brand ≠ corollaCreated.Brand :=
  ⟨rfl, rfl, rfl, rfl, rfl, rfl, rfl, by decide⟩

/-- C10, amended. A record `created` is created through the service from a request with
brand `b` and model `m`, at clock reading `t0`. An update that carries its identifier, the
brand `b` and a new model (whatever the other fields), made at a clock reading `now` that is
not zero and not earlier than `t0`, and that succeeds, returns and stores a record with the
same identifier, brand `b`, the new model, and update timestamp `now`, which is set and not
earlier than the creation timestamp of `created`. -/
theorem update_scenario_with_brand (svc : CarService) (env : Env) (hc : env.cars.Lawful)
    (fl0 : Faults) (cfl0 : CacheFaults) (w0 : World) (uuid : String) (timestamp : Int)
    (t0 : Time) (request created : Car) (w1 : World)
    (fl : Faults) (cfl : CacheFaults) (now : Time) (body : Car)
    (hcreate : svc.CreateCar env fl0 cfl0 w0 uuid timestamp t0 request
      = some (.ok (), created, w1))
    (hbrand : body.Brand = request.Brand) (hnow : 0 < now) (hclock : t0 ≤ now)
    (hok : ∃ car, (CarController.UpdateCar svc env fl cfl w1 now created.ID (some body)).1
      = .ok car) :
    created.Brand = request.Brand ∧ created.Model = request.Model ∧ created.CreatedAt = t0 ∧
    ∃ car : Car,
      (CarController.UpdateCar svc env fl cfl w1 now created.ID (some body)).1 = .ok car ∧
      svc.Repo.FindByID env.cars
        (CarController.UpdateCar svc env fl cfl w1 now created.ID (some body)).2.fs created.ID
        = .ok car ∧
      car.ID = created.ID ∧ car.Brand = request.Brand ∧ car.Model = body.Model ∧
      car.UpdatedAt = now ∧ car.UpdatedAt ≠ 0 ∧ created.CreatedAt ≤ car.UpdatedAt := by
  obtain ⟨id, _, hcreated, _, _⟩ :=
    CreateCar_ok svc env fl0 cfl0 w0 uuid timestamp t0 request created w1 hcreate
  have hb : created.Brand = request.Brand := by rw [hcreated]
  have hm : created.Model = request.Model := by rw [hcreated]
  have ht : created.CreatedAt = t0 := by rw [hcreated]
  refine ⟨hb, hm, ht, ?_⟩
  obtain ⟨car, hcar⟩ := hok
  obtain ⟨hsvc, hcareq, hworld⟩ :=
    Controller_UpdateCar_ok svc env fl cfl w1 now created.ID body car hcar
  obtain ⟨h1, h2, h3⟩ := UpdateCar_result svc env fl cfl w1 now { body with ID := created.ID }
  rw [h2] at hcareq
  rw [h1] at hsvc
  have hst := Update_ok_stored svc.Repo env.cars hc fl w1.fs
    { body with ID := created.ID, UpdatedAt := now } hsvc
  rw [← h3, ← hworld] at hst
  refine ⟨car, hcar, ?_, ?_, ?_, ?_, ?_, ?_, ?_⟩
  · rw [hcareq]
    exact hst
  · rw [hcareq]
  · rw [hcareq]
    exact hbrand
  · rw [hcareq]
  · rw [hcareq]
  · rw [hcareq]
    exact ne_of_gt hnow
  · rw [hcareq, ht]
    exact hclock

/-- C10, amended, on the scenario: after creating `{brand: "Toyota", model: "Corolla"}`, the
update with the body `{brand: "Toyota", model: "Camry"}` returns and stores a Toyota Camry
with the same identifier and update timestamp `200`. -/
theorem update_scenario_with_brand_witness :
    (sampleService.CreateCar sampleEnv Faults.none CacheFaults.none emptyWorld sampleUUID
        sampleNano 100 corollaRequest = some (.ok (), corollaCreated, createdWorld) ∧
      brandModelBody.Brand = corollaRequest.Brand ∧ (0 : Time) < 200 ∧ (100 : Time) ≤ 200 ∧
      (CarController.UpdateCar sampleService sampleEnv Faults.none CacheFaults.none createdWorld
        200 corollaCreated.ID (some brandModelBody)).1 = .ok brandModelStored) ∧
    corollaCreated.Brand = corollaRequest.Brand ∧ corollaCreated.Model = corollaRequest.Model ∧
    corollaCreated.CreatedAt = 100 ∧
    ∃ car : Car,
      (CarController.UpdateCar sampleService sampleEnv Faults.none CacheFaults.none createdWorld
        200 corollaCreated.ID (some brandModelBody)).1 = .ok car ∧
      sampleService.Repo.FindByID sampleEnv.cars
        (CarController.UpdateCar sampleService sampleEnv Faults.none CacheFaults.none
          createdWorld 200 corollaCreated.ID (some brandModelBody)).2.fs corollaCreated.ID
        = .ok car ∧
      car.ID = corollaCreated.ID ∧ car.Brand = corollaRequest.Brand ∧
      car.Model = brandModelBody.Model ∧
      car.UpdatedAt = 200 ∧ car.UpdatedAt ≠ 0 ∧ corollaCreated.CreatedAt ≤ car.UpdatedAt :=
  ⟨⟨rfl, rfl, by decide, by decide, rfl⟩,
    update_scenario_with_brand sampleService sampleEnv serviceCodec_lawful Faults.none
      CacheFaults.none emptyWorld sampleUUID sampleNano 100 corollaRequest corollaCreated
      createdWorld Faults.none CacheFaults.none 200 brandModelBody rfl rfl (by decide)
      (by decide) ⟨brandModelStored, rfl⟩⟩

/-! ## Identifier uniqueness over the repository operations (C15) -/

/-- Writing at an index the value that is already there changes nothing. -/
theorem set_eq_of_getElem? {β : Type} (l : List β) (i : Nat) (a : β) (h : l[i]? = some a) :
    l.set i a = l := by
  apply List.ext_getElem?
  intro j
  rw [List.getElem?_set]
  by_cases hij : i = j
  · subst hij
    have hlt : i < l.length := (List.getElem?_eq_some_iff.mp h).1
    simp [hlt, h]
  · simp [hij]

/-- Replacing a record by one with the same identifier leaves the identifiers as they
were. -/
theorem map_ID_set (cars : List Car) (i : Nat) (car x : Car) (hx : cars[i]? = some x)
    (hid : x.ID = car.ID) : (cars.set i car).map Car.ID = cars.map Car.ID := by
  rw [List.map_set]
  apply set_eq_of_getElem?
  rw [List.getElem?_map, hx, ← hid]
  rfl

/-- After a successful `Delete`, the stored collection is the prior one without the records
of that identifier. -/
theorem Delete_ok_stored (r : FileCarRepository) (c : Codec (List Car)) (hc : c.Lawful)
    (fl : Faults) (fs : FS) (id : String) (hok : (r.Delete c fl fs id).1 = .ok ()) :
    ∃ cars, r.FindAll c fs = .ok cars ∧
      r.FindAll c (r.Delete c fl fs id).2 = .ok (cars.filter (fun x => decide (x.ID ≠ id))) := by
  cases hl : r.FindAll c fs with
  | error e =>
    simp [FileCarRepository.Delete, hl] at hok
  | ok cars =>
    refine ⟨cars, rfl, ?_⟩
    have hloop := deleteLoop_eq id cars [] false
    simp only [List.nil_append, Bool.false_or] at hloop
    cases hany : cars.any (fun x => decide (x.ID = id)) with
    | false =>
      simp [FileCarRepository.Delete, hl, hloop, hany] at hok
    | true =>
      have hsave : (r.Storage.SaveJSON c fl fs r.FileName
          (cars.filter (fun x => decide (x.ID ≠ id)))).1 = .ok () := by
        simp only [FileCarRepository.Delete, hl, hloop, hany] at hok
        rcases hs : r.Storage.SaveJSON c fl fs r.FileName
          (cars.filter (fun x => decide (x.ID ≠ id))) with ⟨e | u, fs1⟩
        · rw [hs] at hok
          exact Except.noConfusion hok
        · rfl
      have h2 : (r.Delete c fl fs id).2
          = (r.Storage.SaveJSON c fl fs r.FileName
              (cars.filter (fun x => decide (x.ID ≠ id)))).2 := by
        simp only [FileCarRepository.Delete, hl, hloop, hany]
        rcases hs : r.Storage.SaveJSON c fl fs r.FileName
          (cars.filter (fun x => decide (x.ID ≠ id))) with ⟨_ | _, fs1⟩ <;> rfl
      rw [h2]
      exact FindAll_after_SaveJSON r c hc fl fs _ hsave

/-- C15. From a stored collection `cars` whose identifiers are pairwise distinct: after a
successful `Update` the stored collection has the same identifiers, pairwise distinct;
after a successful `Delete` its identifiers are pairwise distinct; after a successful
`Create car` the stored collection is `cars ++ [car]` and its identifiers are pairwise
distinct if and only if no record of `cars` has the identifier of `car`. -/
theorem unique_ids_invariant (r : FileCarRepository) (c : Codec (List Car)) (hc : c.Lawful)
    (fl : Faults) (fs : FS) (cars : List Car)
    (hload : r.FindAll c fs = .ok cars) (hnd : (cars.map Car.ID).Nodup) :
    (∀ car : Car, (r.Update c fl fs car).1 = .ok () →
      ∃ cars1, r.FindAll c (r.Update c fl fs car).2 = .ok cars1 ∧
        cars1.map Car.ID = cars.map Car.ID ∧ (cars1.map Car.ID).Nodup) ∧
    (∀ id : String, (r.Delete c fl fs id).1 = .ok () →
      ∃ cars1, r.FindAll c (r.Delete c fl fs id).2 = .ok cars1 ∧ (cars1.map Car.ID).Nodup) ∧
    (∀ car : Car, (r.Create c fl fs car).1 = .ok () →
      r.FindAll c (r.Create c fl fs car).2 = .ok (cars ++ [car]) ∧
      (((cars ++ [car]).map Car.ID).Nodup ↔ ∀ x ∈ cars, x.ID ≠ car.ID)) := by
  refine ⟨?_, ?_, ?_⟩
  · intro car hok
    obtain ⟨cars0, hl0, hex⟩ := Update_ok_found r c fl fs car hok
    have hcars : cars0 = cars := Except.ok.inj (hl0.symm.trans hload)
    subst hcars
    obtain ⟨i, ⟨x, hx, hid⟩, _, _, _, _, _, _, hstored⟩ :=
      Update_of_found r c fl fs car cars0 hload hex
    have hmap := map_ID_set cars0 i car x hx hid
    exact ⟨cars0.set i car, hstored hc hok, hmap, by rw [hmap]; exact hnd⟩
  · intro id hok
    obtain ⟨cars0, hl0, hpost⟩ := Delete_ok_stored r c hc fl fs id hok
    have hcars : cars0 = cars := Except.ok.inj (hl0.symm.trans hload)
    subst hcars
    refine ⟨_, hpost, ?_⟩
    exact List.Nodup.sublist ((List.filter_sublist cars0).map Car.ID) hnd
  · intro car hok
    obtain ⟨cars0, hl0, hpost⟩ := Create_ok_stored r c hc fl fs car hok
    have hcars : cars0 = cars := Except.ok.inj (hl0.symm.trans hload)
    subst hcars
    refine ⟨hpost, ?_⟩
    rw [List.map_append, List.nodup_append]
    constructor
    · rintro ⟨_, _, hdis⟩ x hx hid
      exact hdis (List.mem_map_of_mem Car.ID hx) (by simp [hid])
    · intro hno
      refine ⟨hnd, by simp, ?_⟩
      intro a ha hb
      simp only [List.map_cons, List.map_nil, List.mem_singleton] at hb
      obtain ⟨x, hx, rfl⟩ := List.mem_map.mp ha
      exact hno x hx hb

/-- C15 at the collection `[toyotaA, hondaH]`: its identifiers are distinct; they still are
after updating with `toyotaA2` and after deleting `t1`; after creating `toyotaB` they are
distinct, after creating `toyotaA` again they are not. -/
theorem unique_ids_invariant_witness :
    (sampleRepo.FindAll sampleCodec sampleFS = .ok [toyotaA, hondaH] ∧
      ([toyotaA, hondaH].map Car.ID).Nodup) ∧
    (∃ cars1, sampleRepo.FindAll sampleCodec
        (sampleRepo.Update sampleCodec Faults.none sampleFS toyotaA2).2 = .ok cars1 ∧
      cars1.map Car.ID = [toyotaA, hondaH].map Car.ID ∧ (cars1.map Car.ID).Nodup) ∧
    (∃ cars1, sampleRepo.FindAll sampleCodec
        (sampleRepo.Delete sampleCodec Faults.none sampleFS "t1").2 = .ok cars1 ∧
      (cars1.map Car.ID).Nodup) ∧
    (sampleRepo.FindAll sampleCodec (sampleRepo.Create sampleCodec Faults.none sampleFS toyotaB).2
        = .ok ([toyotaA, hondaH] ++ [toyotaB]) ∧
      (([toyotaA, hondaH] ++ [toyotaB]).map Car.ID).Nodup) ∧
    (sampleRepo.FindAll sampleCodec (sampleRepo.Create sampleCodec Faults.none sampleFS toyotaA).2
        = .ok ([toyotaA, hondaH] ++ [toyotaA]) ∧
      ¬ (([toyotaA, hondaH] ++ [toyotaA]).map Car.ID).Nodup) := by
  have hnd : ([toyotaA, hondaH].map Car.ID).Nodup := by decide
  have h := unique_ids_invariant sampleRepo sampleCodec sampleCodec_lawful Faults.none sampleFS
    [toyotaA, hondaH] rfl hnd
  refine ⟨⟨rfl, hnd⟩, h.1 toyotaA2 rfl, h.2.1 "t1" rfl, ?_, ?_⟩
  · exact ⟨(h.2.2 toyotaB rfl).1, ((h.2.2 toyotaB rfl).2).mpr (by decide)⟩
  · exact ⟨(h.2.2 toyotaA rfl).1,
      fun hdup => ((h.2.2 toyotaA rfl).2).mp hdup toyotaA (by simp) rfl⟩

/-! ## Retry on cache writes (C12) -/

/-- A failing `Set` leaves the cache state as it was. -/
theorem Set_error_cache {α : Type} (r : RedisCache) (c : Codec α) (cfl : CacheFaults)
    (st : CacheState) (key : String) (value : α) (expiration : Int) (e : CacheError)
    (h : (r.Set c cfl st key value expiration).1 = .error e) :
    (r.Set c cfl st key value expiration).2 = st := by
  unfold RedisCache.Set at h ⊢
  cases hm : c.marshal value with
  | none => rfl
  | some data =>
    cases hs : cfl.set with
    | true => simp [hs]
    | false => simp [hm, hs] at h

/-- The loop makes at most as many attempts as it has iterations left. -/
theorem setWithRetryLoop_attempts_le {α : Type} (r : RedisCache) (c : Codec α)
    (cfls : Nat → CacheFaults) (key : String) (value : α) (expiration : Int) (retries : Int) :
    ∀ (fuel i : Nat) (acc : RetryOutcome),
      (setWithRetryLoop r c cfls key value expiration retries fuel i acc).attempts
        ≤ acc.attempts + fuel := by
  intro fuel
  induction fuel with
  | zero =>
    intro i acc
    simp [setWithRetryLoop]
  | succ fuel ih =>
    intro i acc
    simp only [setWithRetryLoop]
    by_cases hle : (i : Int) ≤ retries
    · simp only [hle, if_true]
      rcases hs : r.Set c (cfls i) acc.cache key value expiration with ⟨e | u, st1⟩
      · by_cases hlt : (i : Int) < retries
        · simp only [hlt, if_true]
          have := ih (i + 1) ⟨some e, st1, acc.attempts + 1, acc.sleeps + 1⟩
          simp only at this
          omega
        · simp only [hlt, if_false]
          have := ih (i + 1) ⟨some e, st1, acc.attempts + 1, acc.sleeps⟩
          simp only at this
          omega
      · simp only
        omega
    · simp only [hle, if_false]
      omega

/-- The loop when every attempt from `i` to `n` fails. -/
theorem setWithRetryLoop_all_fail {α : Type} (r : RedisCache) (c : Codec α)
    (cfls : Nat → CacheFaults) (key : String) (value : α) (expiration : Int) (n : Nat)
    (st : CacheState) :
    ∀ (fuel i : Nat) (acc : RetryOutcome), i + fuel = n + 1 → 0 < fuel → acc.cache = st →
      (∀ j, i ≤ j → j ≤ n → ∃ e, (r.Set c (cfls j) st key value expiration).1 = .error e) →
      ∃ e, (r.Set c (cfls n) st key value expiration).1 = .error e ∧
        (setWithRetryLoop r c cfls key value expiration (n : Int) fuel i acc).err = some e ∧
        (setWithRetryLoop r c cfls key value expiration (n : Int) fuel i acc).cache = st ∧
        (setWithRetryLoop r c cfls key value expiration (n : Int) fuel i acc).attempts
          = acc.attempts + fuel ∧
        (setWithRetryLoop r c cfls key value expiration (n : Int) fuel i acc).sleeps
          = acc.sleeps + (fuel - 1) := by
  intro fuel
  induction fuel with
  | zero =>
    intro i acc _ hpos
    exact absurd hpos (Nat.lt_irrefl 0)
  | succ fuel ih =>
    intro i acc hsum _ hcache hfail
    obtain ⟨e, he⟩ := hfail i (Nat.le_refl i) (by omega)
    have hst := Set_error_cache r c (cfls i) st key value expiration e he
    have hle : (i : Int) ≤ (n : Int) := by omega
    simp only [setWithRetryLoop, hle, if_true, hcache]
    rcases hs : r.Set c (cfls i) st key value expiration with ⟨e1 | u, st1⟩
    · rw [hs] at he hst
      simp only at he hst
      have he1 : e1 = e := Except.error.inj he
      subst he1
      subst hst
      by_cases hlt : i < n
      · have hlt2 : (i : Int) < (n : Int) := by omega
        simp only [hlt2, if_true]
        obtain ⟨e2, h1, h2, h3, h4, h5⟩ := ih (i + 1)
          ⟨some e1, st1, acc.attempts + 1, acc.sleeps + 1⟩ (by omega) (by omega) rfl
          (fun j hj hjn => hfail j (by omega) hjn)
        refine ⟨e2, h1, h2, h3, ?_, ?_⟩
        · rw [h4]
          simp only
          omega
        · rw [h5]
          simp only
          omega
      · have hin : i = n := by omega
        have hf0 : fuel = 0 := by omega
        have hlt2 : ¬ (i : Int) < (n : Int) := by omega
        subst hf0
        subst hin
        simp only [hlt2, if_false, setWithRetryLoop]
        refine ⟨e1, by rw [hs], ?_⟩
        simp
    · rw [hs] at he
      exact Except.noConfusion he

/-- The loop when the attempts from `i` up to `k` fail and the attempt `k` succeeds. -/
theorem setWithRetryLoop_first_success {α : Type} (r : RedisCache) (c : Codec α)
    (cfls : Nat → CacheFaults) (key : String) (value : α) (expiration : Int) (n k : Nat)
    (st : CacheState) (hk : k ≤ n)
    (hsucc : (r.Set c (cfls k) st key value expiration).1 = .ok ()) :
    ∀ (fuel i : Nat) (acc : RetryOutcome), i + fuel = n + 1 → i ≤ k → acc.cache = st →
      (∀ j, i ≤ j → j < k → ∃ e, (r.Set c (cfls j) st key value expiration).1 = .error e) →
      (setWithRetryLoop r c cfls key value expiration (n : Int) fuel i acc).err = Option.none ∧
      (setWithRetryLoop r c cfls key value expiration (n : Int) fuel i acc).cache
        = (r.Set c (cfls k) st key value expiration).2 ∧
      (setWithRetryLoop r c cfls key value expiration (n : Int) fuel i acc).attempts
        = acc.attempts + (k - i) + 1 ∧
      (setWithRetryLoop r c cfls key value expiration (n : Int) fuel i acc).sleeps
        = acc.sleeps + (k - i) := by
  intro fuel
  induction fuel with
  | zero =>
    intro i acc hsum hik
    omega
  | succ fuel ih =>
    intro i acc hsum hik hcache hfail
    have hle : (i : Int) ≤ (n : Int) := by omega
    simp only [setWithRetryLoop, hle, if_true, hcache]
    by_cases hieq : i = k
    · subst hieq
      rcases hs : r.Set c (cfls i) st key value expiration with ⟨e1 | u, st1⟩
      · rw [hs] at hsucc
        exact Except.noConfusion hsucc
      · simp
    · have hik2 : i < k := by omega
      obtain ⟨e, he⟩ := hfail i (Nat.le_refl i) hik2
      have hst := Set_error_cache r c (cfls i) st key value expiration e he
      rcases hs : r.Set c (cfls i) st key value expiration with ⟨e1 | u, st1⟩
      · rw [hs] at hst
        simp only at hst
        subst hst
        have hlt2 : (i : Int) < (n : Int) := by omega
        simp only [hlt2, if_true]
        obtain ⟨h2, h3, h4, h5⟩ := ih (i + 1)
          ⟨some e1, st1, acc.attempts + 1, acc.sleeps + 1⟩ (by omega) (by omega) rfl
          (fun j hj hjk => hfail j (by omega) hjk)
        refine ⟨h2, h3, ?_, ?_⟩
        · rw [h4]
          simp only
          omega
        · rw [h5]
          simp only
          omega
      · rw [hs] at he
        exact Except.noConfusion he

/-- C12. `SetWithRetry` with `retries = n ≥ 0`, the attempt of index `j` having the outcome
of `Set` under `cfls j`: it makes at most `n + 1` attempts; when the attempts before `k ≤ n`
fail and the attempt `k` succeeds, it returns success after `k + 1` attempts and `k` sleeps,
with the cache as that attempt left it; when all the attempts `0, ..., n` fail, it returns
the error of the attempt `n` after `n + 1` attempts and `n` sleeps (one between consecutive
attempts, none after the last), the cache unchanged. -/
theorem setWithRetry_contract {α : Type} (r : RedisCache) (c : Codec α)
    (cfls : Nat → CacheFaults) (st : CacheState) (key : String) (value : α)
    (expiration : Int) (n : Nat) :
    (r.SetWithRetry c cfls st key value expiration (n : Int)).attempts ≤ n + 1 ∧
    (∀ k : Nat, k ≤ n →
      (∀ j, j < k → ∃ e, (r.Set c (cfls j) st key value expiration).1 = .error e) →
      (r.Set c (cfls k) st key value expiration).1 = .ok () →
      (r.SetWithRetry c cfls st key value expiration (n : Int)).err = Option.none ∧
      (r.SetWithRetry c cfls st key value expiration (n : Int)).attempts = k + 1 ∧
      (r.SetWithRetry c cfls st key value expiration (n : Int)).sleeps = k ∧
      (r.SetWithRetry c cfls st key value expiration (n : Int)).cache
        = (r.Set c (cfls k) st key value expiration).2) ∧
    ((∀ j, j ≤ n → ∃ e, (r.Set c (cfls j) st key value expiration).1 = .error e) →
      ∃ e, (r.Set c (cfls n) st key value expiration).1 = .error e ∧
        (r.SetWithRetry c cfls st key value expiration (n : Int)).err = some e ∧
        (r.SetWithRetry c cfls st key value expiration (n : Int)).attempts = n + 1 ∧
        (r.SetWithRetry c cfls st key value expiration (n : Int)).sleeps = n ∧
        (r.SetWithRetry c cfls st key value expiration (n : Int)).cache = st) := by
  have hfuel : ((n : Int) + 1).toNat = n + 1 := by omega
  unfold RedisCache.SetWithRetry
  rw [hfuel]
  refine ⟨?_, ?_, ?_⟩
  · have := setWithRetryLoop_attempts_le r c cfls key value expiration (n : Int) (n + 1) 0
      ⟨Option.none, st, 0, 0⟩
    simpa using this
  · intro k hk hfail hsucc
    obtain ⟨h1, h2, h3, h4⟩ := setWithRetryLoop_first_success r c cfls key value expiration n k
      st hk hsucc (n + 1) 0 ⟨Option.none, st, 0, 0⟩ (by omega) (Nat.zero_le k) rfl
      (fun j _ hjk => hfail j hjk)
    exact ⟨h1, by simpa using h3, by simpa using h4, h2⟩
  · intro hfail
    obtain ⟨e, h1, h2, h3, h4, h5⟩ := setWithRetryLoop_all_fail r c cfls key value expiration n
      st (n + 1) 0 ⟨Option.none, st, 0, 0⟩ (by omega) (by omega) rfl
      (fun j _ hjn => hfail j hjn)
    exact ⟨e, h1, h2, by simpa using h4, by simpa using h5, h3⟩

/-- C12 on two sequences of outcomes with `retries = 3`: when the first two attempts fail
and the third works, the call succeeds after 3 attempts and 2 sleeps; when every attempt
fails, it returns the transport error after 4 attempts and 3 sleeps. -/
theorem setWithRetry_contract_witness :
    ((sampleCache.SetWithRetry sampleCarCodec failTwice emptyWorld.cache "car:x" corollaCreated
        dayTTL 3).err = Option.none ∧
      (sampleCache.SetWithRetry sampleCarCodec failTwice emptyWorld.cache "car:x" corollaCreated
        dayTTL 3).attempts = 3 ∧
      (sampleCache.SetWithRetry sampleCarCodec failTwice emptyWorld.cache "car:x" corollaCreated
        dayTTL 3).sleeps = 2) ∧
    ((sampleCache.SetWithRetry sampleCarCodec failAlways emptyWorld.cache "car:x" corollaCreated
        dayTTL 3).err = some CacheError.set ∧
      (sampleCache.SetWithRetry sampleCarCodec failAlways emptyWorld.cache "car:x" corollaCreated
        dayTTL 3).attempts = 4 ∧
      (sampleCache.SetWithRetry sampleCarCodec failAlways emptyWorld.cache "car:x" corollaCreated
        dayTTL 3).sleeps = 3) := by
  constructor
  · have h := (setWithRetry_contract sampleCache sampleCarCodec failTwice emptyWorld.cache "car:x"
      corollaCreated dayTTL 3).2.1 2 (by decide)
      (fun j hj => by
        have hj2 : j = 0 ∨ j = 1 := by omega
        rcases hj2 with rfl | rfl
        · exact ⟨CacheError.set, rfl⟩
        · exact ⟨CacheError.set, rfl⟩) rfl
    exact ⟨h.1, h.2.1, h.2.2.1⟩
  · obtain ⟨e, he, h1, h2, h3, _⟩ := (setWithRetry_contract sampleCache sampleCarCodec failAlways
      emptyWorld.cache "car:x" corollaCreated dayTTL 3).2.2 (fun j _ => ⟨CacheError.set, rfl⟩)
    have hes : e = CacheError.set := (Except.error.inj he).symm
    subst hes
    exact ⟨h1, h2, h3⟩

/-! ## Fallback on cache reads (C11) -/

set_option maxRecDepth 8000 in
/-- C11, the code at a failing input. The cache holds under the key an entry that is
well-formed JSON and does not decode into a `Car`, so `Get` fails; the fallback is invoked
once and returns `corollaCreated`, which goes through JSON unchanged. `GetWithFallback`
decodes the fallback's JSON into the target the failed `Get` has written to: it succeeds
with `corollaCreated` carrying the remarks of the cache entry, not with the value of the
fallback. Through the service, `GetCarByID` returns that record with the cache enabled and
`corollaCreated` with the cache disabled. -/
theorem getWithFallback_returns_merge :
    pollutedCache "carinfo:car:123e4567-cwyvpe" = some (staleText, dayTTL) ∧
    sampleCache.Get jsonCar CacheFaults.none pollutedCache "car:123e4567-cwyvpe" Car.zero
      = (.error .parse, { Car.zero with ID := "123e4567-cwyvpe", Remarks := "stale" }) ∧
    (sampleFallback createdWorld.fs).1 = .ok corollaCreated ∧
    jsonCar.marshal corollaCreated = some corollaText ∧
    jsonCar.unmarshal corollaText = some corollaCreated ∧
    (sampleCache.GetWithFallback jsonCar CacheFaults.none pollutedCache "car:123e4567-cwyvpe"
      Car.zero (counting sampleFallback) (createdWorld.fs, 0) dayTTL).result
      = .ok staleCorolla ∧
    (sampleCache.GetWithFallback jsonCar CacheFaults.none pollutedCache "car:123e4567-cwyvpe"
      Car.zero (counting sampleFallback) (createdWorld.fs, 0) dayTTL).source.2 = 1 ∧
    corollaCreated.Remarks = "" ∧ staleCorolla.Remarks = "stale" ∧
    staleCorolla ≠ corollaCreated ∧
    (sampleService.GetCarByID jsonEnv CacheFaults.none pollutedWorld "123e4567-cwyvpe").1
      = .ok staleCorolla ∧
    (plainService.GetCarByID jsonEnv CacheFaults.none pollutedWorld "123e4567-cwyvpe").1
      = .ok corollaCreated :=
  ⟨rfl, rfl, rfl, rfl, rfl, rfl, rfl, rfl, rfl, by decide, rfl, rfl⟩

/-! ## The service with and without the cache (C13) -/

/-- `CreateCar` in terms of the repository: the returned error, the record and the files do
not depend on the cache. -/
theorem CreateCar_result (s : CarService) (env : Env) (fl : Faults) (cfl : CacheFaults)
    (w : World) (uuid : String) (timestamp : Int) (now : Time) (car : Car) :
    (s.CreateCar env fl cfl w uuid timestamp now car).map (fun o => (o.1, o.2.1, o.2.2.fs))
      = (GenerateID uuid timestamp).map (fun id =>
          ((s.Repo.Create env.cars fl w.fs { car with ID := id, CreatedAt := now }).1,
            { car with ID := id, CreatedAt := now },
            (s.Repo.Create env.cars fl w.fs { car with ID := id, CreatedAt := now }).2)) := by
  simp only [CarService.CreateCar]
  cases hg : GenerateID uuid timestamp with
  | none => rfl
  | some id =>
    simp only [Option.map_some']
    rcases hcr : s.Repo.Create env.cars fl w.fs { car with ID := id, CreatedAt := now }
      with ⟨e | u, fs1⟩
    · rfl
    · cases hcache : s.Cache <;> rfl

/-- `DeleteCar` in terms of the repository. -/
theorem DeleteCar_result (s : CarService) (env : Env) (fl : Faults) (cfl : CacheFaults)
    (w : World) (id : String) :
    (s.DeleteCar env fl cfl w id).1 = (s.Repo.Delete env.cars fl w.fs id).1 ∧
    (s.DeleteCar env fl cfl w id).2.fs = (s.Repo.Delete env.cars fl w.fs id).2 := by
  simp only [CarService.DeleteCar]
  rcases hd : s.Repo.Delete env.cars fl w.fs id with ⟨e | u, fs1⟩
  · exact ⟨rfl, rfl⟩
  · cases hcache : s.Cache <;> exact ⟨rfl, rfl⟩

/-- `GetCarByID` with the cache disabled is `FindByID`, and leaves the state. -/
theorem GetCarByID_disabled (repo : FileCarRepository) (env : Env) (cfl : CacheFaults)
    (w : World) (id : String) :
    sameOutcome ((CarService.mk repo Option.none).GetCarByID env cfl w id).1
      (repo.FindByID env.cars w.fs id) ∧
    ((CarService.mk repo Option.none).GetCarByID env cfl w id).2 = w := by
  simp only [CarService.GetCarByID]
  cases hf : repo.FindByID env.cars w.fs id with
  | error e => exact ⟨trivial, rfl⟩
  | ok car => exact ⟨rfl, rfl⟩

/-- A `Get` that misses or fails in transport leaves the target as it was. -/
theorem Get_target_of_miss_or_transport {α : Type} (r : RedisCache) (c : Codec α)
    (cfl : CacheFaults) (st : CacheState) (key : String) (target : α) (e : CacheError)
    (he : (r.Get c cfl st key target).1 = .error e)
    (hkind : e = CacheError.miss ∨ e = CacheError.get) :
    r.Get c cfl st key target = (.error e, target) := by
  unfold RedisCache.Get at he ⊢
  cases hg : cfl.get with
  | true =>
    simp only [hg, if_true] at he ⊢
    rw [Except.error.inj he]
  | false =>
    simp only [hg, Bool.false_eq_true, if_false] at he ⊢
    cases hst : st (r.formatKey key) with
    | none =>
      simp only [hst] at he ⊢
      rw [Except.error.inj he]
    | some entry =>
      obtain ⟨data, ttl⟩ := entry
      simp only [hst] at he ⊢
      cases hu : c.unmarshal data with
      | none =>
        simp only [hu] at he
        have hp : CacheError.parse = e := Except.error.inj he
        subst hp
        rcases hkind with h | h <;> exact CacheError.noConfusion h
      | some v =>
        simp only [hu] at he
        exact Except.noConfusion he

/-- A fallback that leaves its source leaves it through `GetWithFallback` too. -/
theorem GetWithFallback_source_of_read {α σ ε : Type} (r : RedisCache) (c : Codec α)
    (cfl : CacheFaults) (st : CacheState) (key : String) (target : α)
    (fallback : σ → Except ε α × σ) (src : σ) (expiration : Int)
    (hread : (fallback src).2 = src) :
    (r.GetWithFallback c cfl st key target fallback src expiration).source = src := by
  simp only [RedisCache.GetWithFallback]
  rcases hg : r.Get c cfl st key target with ⟨e | u, target1⟩
  · rcases hf : fallback src with ⟨e1 | v, src1⟩
    · rw [hf] at hread
      exact hread
    · rw [hf] at hread
      cases hm : c.marshal v with
      | none =>
        simp only [hm]
        exact hread
      | some s =>
        rcases hu : c.unmarshalInto s target1 with ⟨b, v1⟩
        cases b with
        | false =>
          simp only [hm, hu]
          exact hread
        | true =>
          simp only [hm, hu]
          exact hread
  · rfl

/-- `GetCarByID` with the cache enabled never changes the files. -/
theorem GetCarByID_enabled_fs (repo : FileCarRepository) (cache : RedisCache) (env : Env)
    (cfl : CacheFaults) (w : World) (id : String) :
    ((CarService.mk repo (some cache)).GetCarByID env cfl w id).2.fs = w.fs := by
  have hsrc := GetWithFallback_source_of_read cache env.car cfl w.cache ("car:" ++ id) Car.zero
    (fun fs => (repo.FindByID env.cars fs id, fs)) w.fs dayTTL rfl
  simp only [CarService.GetCarByID]
  cases hr : (cache.GetWithFallback env.car cfl w.cache ("car:" ++ id) Car.zero
      (fun fs => (repo.FindByID env.cars fs id, fs)) w.fs dayTTL).result with
  | error e => exact hsrc
  | ok car => exact hsrc

/-- `GetCarByID` with the cache enabled, on a hit: the cached value. -/
theorem GetCarByID_enabled_hit (repo : FileCarRepository) (cache : RedisCache) (env : Env)
    (cfl : CacheFaults) (w : World) (id : String) (v : Car)
    (hg : cache.Get env.car cfl w.cache ("car:" ++ id) Car.zero = (.ok (), v)) :
    ((CarService.mk repo (some cache)).GetCarByID env cfl w id).1 = .ok v := by
  simp [CarService.GetCarByID, RedisCache.GetWithFallback, hg]

/-- `GetCarByID` with the cache enabled, when `Get` fails and the store has no such record:
a failure. -/
theorem GetCarByID_enabled_absent (repo : FileCarRepository) (cache : RedisCache) (env : Env)
    (cfl : CacheFaults) (w : World) (id : String) (e : CacheError) (e1 : RepoError)
    (hg : (cache.Get env.car cfl w.cache ("car:" ++ id) Car.zero).1 = .error e)
    (hf : repo.FindByID env.cars w.fs id = .error e1) :
    ((CarService.mk repo (some cache)).GetCarByID env cfl w id).1
      = .error (.cache (.fallback e1)) := by
  rcases hget : cache.Get env.car cfl w.cache ("car:" ++ id) Car.zero with ⟨e2 | u, target1⟩
  · simp [CarService.GetCarByID, RedisCache.GetWithFallback, hget, hf]
  · rw [hget] at hg
    exact Except.noConfusion hg

/-- `GetCarByID` with the cache enabled, when `Get` misses or fails in transport and the
store has the record, which goes through JSON unchanged: the record. -/
theorem GetCarByID_enabled_found (repo : FileCarRepository) (cache : RedisCache) (env : Env)
    (cfl : CacheFaults) (w : World) (id : String) (e : CacheError) (v : Car) (s : String)
    (hg : (cache.Get env.car cfl w.cache ("car:" ++ id) Car.zero).1 = .error e)
    (hkind : e = CacheError.miss ∨ e = CacheError.get)
    (hf : repo.FindByID env.cars w.fs id = .ok v)
    (hm : env.car.marshal v = some s) (hu : env.car.unmarshalInto s Car.zero = (true, v)) :
    ((CarService.mk repo (some cache)).GetCarByID env cfl w id).1 = .ok v := by
  have hget := Get_target_of_miss_or_transport cache env.car cfl w.cache ("car:" ++ id)
    Car.zero e hg hkind
  simp [CarService.GetCarByID, RedisCache.GetWithFallback, hget, hf, hm, hu]

/-- C13 as stated fails for `GetCarByID`. The record `corollaCreated` is created (store and
cache), then deleted while the cache delete fails, which `DeleteCar` ignores: the store is
empty and the cache still holds the record. On that state `GetCarByID` succeeds with the
record when the cache is enabled and fails with not-found when it is disabled. -/
theorem getCarByID_differs_on_stale_hit :
    sampleService.Repo = plainService.Repo ∧
    sampleService.Cache = some sampleCache ∧ plainService.Cache = Option.none ∧
    sampleService.CreateCar sampleEnv Faults.none CacheFaults.none emptyWorld sampleUUID
      sampleNano 100 corollaRequest = some (.ok (), corollaCreated, createdWorld) ∧
    (sampleService.DeleteCar sampleEnv Faults.none delFault createdWorld "123e4567-cwyvpe").1
      = .ok () ∧
    sampleService.GetAllCars sampleEnv staleWorld = .ok [] ∧
    (sampleService.GetCarByID sampleEnv CacheFaults.none staleWorld "123e4567-cwyvpe").1
      = .ok corollaCreated ∧
    (plainService.GetCarByID sampleEnv CacheFaults.none staleWorld "123e4567-cwyvpe").1
      = .error (.repo (.notFound "123e4567-cwyvpe")) ∧
    ¬ sameOutcome
      (sampleService.GetCarByID sampleEnv CacheFaults.none staleWorld "123e4567-cwyvpe").1
      (plainService.GetCarByID sampleEnv CacheFaults.none staleWorld "123e4567-cwyvpe").1 :=
  ⟨rfl, rfl, rfl, rfl, rfl, rfl, rfl, rfl, fun h => h⟩

/-- C13, amended. For every store state, cache content and outcome of the cache calls, with
the same repository once with the cache enabled and once disabled: `GetAllCars` and
`FindCarsByBrand` return the same; `CreateCar`, `UpdateCar` and `DeleteCar` return the same
error, the same record and leave the same files; `GetCarByID` leaves the files as they were
in both cases; on a hit the enabled service returns the cached value, so its outcome is the
same when that is the record the store holds; when the lookup fails and the store has no
such record both fail; when the lookup misses or fails in transport and the stored record
goes through JSON unchanged, both return it. Nothing is said of a lookup that fails to
decode the entry while the store has the record. -/
theorem cache_optional_except_stale_hits (repo : FileCarRepository) (cache : RedisCache)
    (env : Env) (fl : Faults) (cfl : CacheFaults) (w : World) :
    (CarService.mk repo (some cache)).GetAllCars env w
      = (CarService.mk repo Option.none).GetAllCars env w ∧
    (∀ brand, (CarService.mk repo (some cache)).FindCarsByBrand env w brand
      = (CarService.mk repo Option.none).FindCarsByBrand env w brand) ∧
    (∀ uuid timestamp now car,
      ((CarService.mk repo (some cache)).CreateCar env fl cfl w uuid timestamp now car).map
          (fun o => (o.1, o.2.1, o.2.2.fs))
        = ((CarService.mk repo Option.none).CreateCar env fl cfl w uuid timestamp now car).map
          (fun o => (o.1, o.2.1, o.2.2.fs))) ∧
    (∀ now car,
      ((CarService.mk repo (some cache)).UpdateCar env fl cfl w now car).1
        = ((CarService.mk repo Option.none).UpdateCar env fl cfl w now car).1 ∧
      ((CarService.mk repo (some cache)).UpdateCar env fl cfl w now car).2.1
        = ((CarService.mk repo Option.none).UpdateCar env fl cfl w now car).2.1 ∧
      ((CarService.mk repo (some cache)).UpdateCar env fl cfl w now car).2.2.fs
        = ((CarService.mk repo Option.none).UpdateCar env fl cfl w now car).2.2.fs) ∧
    (∀ id,
      ((CarService.mk repo (some cache)).DeleteCar env fl cfl w id).1
        = ((CarService.mk repo Option.none).DeleteCar env fl cfl w id).1 ∧
      ((CarService.mk repo (some cache)).DeleteCar env fl cfl w id).2.fs
        = ((CarService.mk repo Option.none).DeleteCar env fl cfl w id).2.fs) ∧
    (∀ id,
      ((CarService.mk repo (some cache)).GetCarByID env cfl w id).2.fs = w.fs ∧
      ((CarService.mk repo Option.none).GetCarByID env cfl w id).2.fs = w.fs ∧
      (∀ v, cache.Get env.car cfl w.cache ("car:" ++ id) Car.zero = (.ok (), v) →
        ((CarService.mk repo (some cache)).GetCarByID env cfl w id).1 = .ok v ∧
        (repo.FindByID env.cars w.fs id = .ok v →
          sameOutcome ((CarService.mk repo (some cache)).GetCarByID env cfl w id).1
            ((CarService.mk repo Option.none).GetCarByID env cfl w id).1)) ∧
      (∀ e, (cache.Get env.car cfl w.cache ("car:" ++ id) Car.zero).1 = .error e →
        (∀ e1, repo.FindByID env.cars w.fs id = .error e1 →
          sameOutcome ((CarService.mk repo (some cache)).GetCarByID env cfl w id).1
            ((CarService.mk repo Option.none).GetCarByID env cfl w id).1) ∧
        (e = CacheError.miss ∨ e = CacheError.get →
          ∀ v s, repo.FindByID env.cars w.fs id = .ok v → env.car.marshal v = some s →
          env.car.unmarshalInto s Car.zero = (true, v) →
          ((CarService.mk repo (some cache)).GetCarByID env cfl w id).1 = .ok v ∧
          sameOutcome ((CarService.mk repo (some cache)).GetCarByID env cfl w id).1
            ((CarService.mk repo Option.none).GetCarByID env cfl w id).1))) := by
  refine ⟨rfl, fun _ => rfl, ?_, ?_, ?_, ?_⟩
  · intro uuid timestamp now car
    rw [CreateCar_result, CreateCar_result]
  · intro now car
    obtain ⟨a1, a2, a3⟩ := UpdateCar_result (CarService.mk repo (some cache)) env fl cfl w now car
    obtain ⟨b1, b2, b3⟩ := UpdateCar_result (CarService.mk repo Option.none) env fl cfl w now car
    exact ⟨a1.trans b1.symm, a2.trans b2.symm, a3.trans b3.symm⟩
  · intro id
    obtain ⟨a1, a2⟩ := DeleteCar_result (CarService.mk repo (some cache)) env fl cfl w id
    obtain ⟨b1, b2⟩ := DeleteCar_result (CarService.mk repo Option.none) env fl cfl w id
    exact ⟨a1.trans b1.symm, a2.trans b2.symm⟩
  · intro id
    have hoff : ∀ v, repo.FindByID env.cars w.fs id = .ok v →
        ((CarService.mk repo Option.none).GetCarByID env cfl w id).1 = .ok v := by
      intro v hf
      simp [CarService.GetCarByID, hf]
    have hoffe : ∀ e1, repo.FindByID env.cars w.fs id = .error e1 →
        ((CarService.mk repo Option.none).GetCarByID env cfl w id).1 = .error (.repo e1) := by
      intro e1 hf
      simp [CarService.GetCarByID, hf]
    refine ⟨GetCarByID_enabled_fs repo cache env cfl w id, ?_, ?_, ?_⟩
    · rw [(GetCarByID_disabled repo env cfl w id).2]
    · intro v hg
      have hon := GetCarByID_enabled_hit repo cache env cfl w id v hg
      refine ⟨hon, ?_⟩
      intro hf
      rw [hon, hoff v hf]
      exact rfl
    · intro e hg
      constructor
      · intro e1 hf
        rw [GetCarByID_enabled_absent repo cache env cfl w id e e1 hg hf, hoffe e1 hf]
        exact trivial
      · intro hkind v s hf hm hu
        have hon := GetCarByID_enabled_found repo cache env cfl w id e v s hg hkind hf hm hu
        refine ⟨hon, ?_⟩
        rw [hon, hoff v hf]
        exact rfl

/-- C13, amended, on two lookups that fail and leave the target: with the record in the
store and nothing cached, and with the record cached but the cache read failing in
transport, `GetCarByID` returns the record with the cache enabled as with the cache
disabled. -/
theorem cache_optional_except_stale_hits_witness :
    ((sampleService.GetCarByID sampleEnv CacheFaults.none coldWorld "123e4567-cwyvpe").1
        = .ok corollaCreated ∧
      sameOutcome
        (sampleService.GetCarByID sampleEnv CacheFaults.none coldWorld "123e4567-cwyvpe").1
        (plainService.GetCarByID sampleEnv CacheFaults.none coldWorld "123e4567-cwyvpe").1) ∧
    ((sampleService.GetCarByID sampleEnv getFault createdWorld "123e4567-cwyvpe").1
        = .ok corollaCreated ∧
      sameOutcome
        (sampleService.GetCarByID sampleEnv getFault createdWorld "123e4567-cwyvpe").1
        (plainService.GetCarByID sampleEnv getFault createdWorld "123e4567-cwyvpe").1) :=
  ⟨(((cache_optional_except_stale_hits sampleRepo sampleCache sampleEnv Faults.none
      CacheFaults.none coldWorld).2.2.2.2.2 "123e4567-cwyvpe").2.2.2 CacheError.miss rfl).2
      (Or.inl rfl) corollaCreated "C" rfl rfl rfl,
    (((cache_optional_except_stale_hits sampleRepo sampleCache sampleEnv Faults.none
      getFault createdWorld).2.2.2.2.2 "123e4567-cwyvpe").2.2.2 CacheError.get rfl).2
      (Or.inr rfl) corollaCreated "C" rfl rfl rfl⟩

/-! ## Identifier generation (C14) -/

/-- C14, the code at a failing input. `GenerateID` keeps the first six base-36 digits of a
twelve-digit nanosecond timestamp, which stay the same for about two seconds: with the same
UUID string, the timestamps `1700000000000000000` and `1700000000000000001` give the same
identifier, and so does another UUID with the same first eight characters, also half a
second later. Through the service, two creations one nanosecond apart store two records with
the same identifier. -/
theorem generateID_collides :
    FormatInt36 1700000000000000000 = "cwyvpelgpse8" ∧
    FormatInt36 1700000000000000001 = "cwyvpelgpse9" ∧
    FormatInt36 1700000000500000000 = "cwyvpetqeiv4" ∧
    GenerateID firstUUID 1700000000000000000 = some "123e4567-cwyvpe" ∧
    GenerateID firstUUID 1700000000000000001 = some "123e4567-cwyvpe" ∧
    firstUUID ≠ otherUUID ∧
    GenerateID otherUUID 1700000000000000001 = some "123e4567-cwyvpe" ∧
    GenerateID otherUUID 1700000000500000000 = some "123e4567-cwyvpe" ∧
    sampleService.CreateCar sampleEnv Faults.none CacheFaults.none emptyWorld firstUUID
      1700000000000000000 100 corollaRequest = some (.ok (), corollaCreated, createdWorld) ∧
    sampleService.CreateCar sampleEnv Faults.none CacheFaults.none createdWorld otherUUID
      1700000000000000001 101 civicRequest = some (.ok (), civicCreated, collidedWorld) ∧
    sampleService.GetAllCars sampleEnv collidedWorld = .ok [corollaCreated, civicCreated] ∧
    corollaCreated.ID = civicCreated.ID :=
  ⟨by decide, by decide, by decide, by decide, by decide, by decide, by decide, by decide,
    rfl, rfl, rfl, rfl⟩

end CarInfo
